import Mathlib

/-! # Parking-lot fragment of `practiceDesignPatterns.cpp`

A shallow embedding of the parking-lot sketch (`Vehicle`, `ParkingSpot`,
`ParkingLevel`, `ParkingSpotAllocator`, the fee strategies and
`ParkingFeeCalculator`) together with the properties established about it.

Conventions of the embedding.

* A C++ object is a Lean structure with the same field names; a member function
  that assigns to fields is a function returning the updated object.
* `Vehicle*` is `Option Vehicle`: `none` is `nullptr`.  Where the source
  dereferences the pointer (`canFitVehicle`, `findAvailableSpot`, `findSpot`)
  the pointee itself is passed.
* A `ParkingSpot*` pointing into a level is the index of the spot in the
  `spots` vector; one pointing into a lot is a pair (level index, spot index).
  The vectors are never resized after construction, so these stay valid.
* `int` is `Int` (no arithmetic of the fragment leaves the `int` range:
  `i + 1` is bounded by `numSpots`), `std::time_t` is `Int` (whole seconds),
  `double` is IEEE 754 binary64 with round-to-nearest-even arithmetic (see the
  type `double` below).
* An out-of-range `operator[]` is undefined behaviour and is modelled by `none`.
-/

set_option autoImplicit false

/-! ## Data model -/

/-- The enumeration `VehicleSize { Small, Compact }`. -/
inductive VehicleSize where
  | Small
  | Compact
  deriving DecidableEq

/-- The integer value of an enumerator (`Small = 0`, `Compact = 1`), which is
what the built-in `<=` of the source compares. -/
def VehicleSize.toInt : VehicleSize → Int
  | .Small => 0
  | .Compact => 1

/-- The class `Vehicle`. -/
structure Vehicle where
  licensePlate : String
  size : VehicleSize
  deriving DecidableEq

/-- Modelled from the spec: `Vehicle::getSize` is declared without a body in
the source; the spec's Vehicle is an immutable record of a license plate and a
size class, so the getter returns the `size` field. -/
def Vehicle.getSize (v : Vehicle) : VehicleSize := v.size

/-- The class `ParkingSpot`. -/
structure ParkingSpot where
  spotNumber : Int
  isAvailable : Bool
  size : VehicleSize
  currentVehicle : Option Vehicle
  deriving DecidableEq

/-- The constructor `ParkingSpot(int spotNumber, VehicleSize size)`. -/
def ParkingSpot.ctor (spotNumber : Int) (size : VehicleSize) : ParkingSpot :=
  { spotNumber := spotNumber, size := size, isAvailable := true, currentVehicle := none }

/-- `ParkingSpot::canFitVehicle`: `vehicle->getSize() <= size`. -/
def ParkingSpot.canFitVehicle (s : ParkingSpot) (vehicle : Vehicle) : Bool :=
  decide (vehicle.getSize.toInt ≤ s.size.toInt)

/-- `ParkingSpot::parkVehicle`: stores the pointer and clears the flag. -/
def ParkingSpot.parkVehicle (s : ParkingSpot) (vehicle : Option Vehicle) : ParkingSpot :=
  { s with currentVehicle := vehicle, isAvailable := false }

/-- `ParkingSpot::freeSpot`. -/
def ParkingSpot.freeSpot (s : ParkingSpot) : ParkingSpot :=
  { s with currentVehicle := none, isAvailable := true }

/-- `ParkingSpot::getAvailability`. -/
def ParkingSpot.getAvailability (s : ParkingSpot) : Bool := s.isAvailable

/-- `ParkingSpot::getSpotNumber`. -/
def ParkingSpot.getSpotNumber (s : ParkingSpot) : Int := s.spotNumber

/-- The class `ParkingLevel`. -/
structure ParkingLevel where
  levelNumber : Int
  spots : List ParkingSpot
  deriving DecidableEq

/-- The loop of the `ParkingLevel` constructor: `todo` iterations remain and
the loop variable is `i`; every iteration pushes `ParkingSpot(i + 1, Compact)`. -/
def ParkingLevel.ctorLoop : Nat → Int → List ParkingSpot
  | 0, _ => []
  | todo + 1, i => ParkingSpot.ctor (i + 1) VehicleSize.Compact :: ParkingLevel.ctorLoop todo (i + 1)

/-- The constructor `ParkingLevel(int levelNumber, int numSpots)`: the loop
`for (i = 0; i < numSpots; ++i)` runs `numSpots` times, not at all when
`numSpots <= 0`. -/
def ParkingLevel.ctor (levelNumber numSpots : Int) : ParkingLevel :=
  { levelNumber := levelNumber, spots := ParkingLevel.ctorLoop numSpots.toNat 0 }

/-- The range-for of `ParkingLevel::findAvailableSpot` over the spots that
remain, `i` being the index of the first of them: the address of the first
spot with `canFitVehicle(vehicle) && getAvailability()`. -/
def ParkingLevel.findFrom (vehicle : Vehicle) : List ParkingSpot → Nat → Option Nat
  | [], _ => none
  | spot :: rest, i =>
    if spot.canFitVehicle vehicle && spot.getAvailability then some i
    else ParkingLevel.findFrom vehicle rest (i + 1)

/-- `ParkingLevel::findAvailableSpot`: `some i` is `&spots[i]`, `none` is
`nullptr`. -/
def ParkingLevel.findAvailableSpot (lv : ParkingLevel) (vehicle : Vehicle) : Option Nat :=
  ParkingLevel.findFrom vehicle lv.spots 0

/-- A member call `p->m()` through a pointer `p = &spots[i]` into the level,
`m` being the effect of the member on the spot; `none` when `i` is not the
index of a spot (an out-of-range `operator[]`, or no pointer into the level). -/
def ParkingLevel.callAt (lv : ParkingLevel) (i : Nat) (m : ParkingSpot → ParkingSpot) :
    Option ParkingLevel :=
  match lv.spots[i]? with
  | some spot => some { lv with spots := lv.spots.set i (m spot) }
  | none => none

/-- `ParkingLevel::freeSpot`: `spots[spotNumber - 1].freeSpot()`; an index
outside the vector (also a negative one, which converts to a huge unsigned
index) is undefined behaviour (`none`). -/
def ParkingLevel.freeSpot (lv : ParkingLevel) (spotNumber : Int) : Option ParkingLevel :=
  if 1 ≤ spotNumber then lv.callAt (spotNumber - 1).toNat ParkingSpot.freeSpot else none

/-- The call `p->parkVehicle(vehicle)` for `p = &spots[i]`. -/
def ParkingLevel.parkAt (lv : ParkingLevel) (i : Nat) (vehicle : Option Vehicle) :
    Option ParkingLevel :=
  lv.callAt i (fun spot => spot.parkVehicle vehicle)

/-- The call `p->freeSpot()` for `p = &spots[i]`. -/
def ParkingLevel.freeAt (lv : ParkingLevel) (i : Nat) : Option ParkingLevel :=
  lv.callAt i ParkingSpot.freeSpot

/-- The class `ParkingLot`. -/
structure ParkingLot where
  levels : List ParkingLevel
  deriving DecidableEq

/-- Modelled from the spec: `ParkingLot::getLevels` is called by the allocator
but has no declaration or body in the source; the spec's lot is an ordered
sequence of levels, so the accessor returns the `levels` vector. -/
def ParkingLot.getLevels (lot : ParkingLot) : List ParkingLevel := lot.levels

/-- The range-for of `ParkingSpotAllocator::findSpot` over the levels that
remain, `l` being the index of the first of them. -/
def ParkingSpotAllocator.findFrom (vehicle : Vehicle) : List ParkingLevel → Nat → Option (Nat × Nat)
  | [], _ => none
  | level :: rest, l =>
    match level.findAvailableSpot vehicle with
    | some spot => some (l, spot)
    | none => ParkingSpotAllocator.findFrom vehicle rest (l + 1)

/-- `ParkingSpotAllocator::findSpot`: `some (l, i)` is the address of spot `i`
of level `l`, `none` is `nullptr`. -/
def ParkingSpotAllocator.findSpot (lot : ParkingLot) (vehicle : Vehicle) : Option (Nat × Nat) :=
  ParkingSpotAllocator.findFrom vehicle lot.getLevels 0

/-- The spot behind a pointer into a level. -/
def ParkingLevel.spotAt (lv : ParkingLevel) (i : Nat) : Option ParkingSpot := lv.spots[i]?

/-- The spot behind a pointer into a lot. -/
def ParkingLot.spotAt (lot : ParkingLot) (p : Nat × Nat) : Option ParkingSpot :=
  match lot.levels[p.1]? with
  | some lv => lv.spotAt p.2
  | none => none

/-- A spot is a candidate for a vehicle when it fits it and is available: the
condition tested by `findAvailableSpot`. -/
def ParkingSpot.suits (s : ParkingSpot) (vehicle : Vehicle) : Prop :=
  s.canFitVehicle vehicle = true ∧ s.getAvailability = true

instance (s : ParkingSpot) (vehicle : Vehicle) : Decidable (s.suits vehicle) := by
  unfold ParkingSpot.suits; infer_instance

/-- The spot states a program can produce: the private fields are written only
by the constructor, `parkVehicle` and `freeSpot`. -/
inductive ParkingSpot.Reachable : ParkingSpot → Prop
  | ctor (spotNumber : Int) (size : VehicleSize) : ParkingSpot.Reachable (ParkingSpot.ctor spotNumber size)
  | parkVehicle (s : ParkingSpot) (vehicle : Option Vehicle) :
      ParkingSpot.Reachable s → ParkingSpot.Reachable (s.parkVehicle vehicle)
  | freeSpot (s : ParkingSpot) : ParkingSpot.Reachable s → ParkingSpot.Reachable s.freeSpot

/-- The levels a program can produce: built by the constructor and then changed
only by parking in and freeing its spots. -/
inductive ParkingLevel.Reachable : ParkingLevel → Prop
  | ctor (levelNumber numSpots : Int) : ParkingLevel.Reachable (ParkingLevel.ctor levelNumber numSpots)
  | parkAt (lv lv' : ParkingLevel) (i : Nat) (vehicle : Option Vehicle) :
      ParkingLevel.Reachable lv → lv.parkAt i vehicle = some lv' → ParkingLevel.Reachable lv'
  | freeAt (lv lv' : ParkingLevel) (i : Nat) :
      ParkingLevel.Reachable lv → lv.freeAt i = some lv' → ParkingLevel.Reachable lv'
  | freeSpot (lv lv' : ParkingLevel) (spotNumber : Int) :
      ParkingLevel.Reachable lv → lv.freeSpot spotNumber = some lv' → ParkingLevel.Reachable lv'

/-- A member call on level `l` of the lot, `m` being its effect on the level;
`none` when the lot has no level `l` or the call itself is undefined. -/
def ParkingLot.callAt (lot : ParkingLot) (l : Nat) (m : ParkingLevel → Option ParkingLevel) :
    Option ParkingLot :=
  match lot.levels[l]? with
  | some lv =>
    match m lv with
    | some lv' => some { levels := lot.levels.set l lv' }
    | none => none
  | none => none

/-- The calls of the fragment that change a spot of a lot: `parkVehicle` and
`freeSpot` through a pointer to spot `spot` of level `level`, and
`ParkingLevel::freeSpot(spotNumber)` on level `level`. -/
inductive LotOp where
  | parkVehicle (level spot : Nat) (vehicle : Option Vehicle)
  | freeSpot (level spot : Nat)
  | levelFreeSpot (level : Nat) (spotNumber : Int)
  deriving DecidableEq

/-- One call applied to a lot. -/
def ParkingLot.step (lot : ParkingLot) : LotOp → Option ParkingLot
  | .parkVehicle l i vehicle => lot.callAt l (fun lv => lv.parkAt i vehicle)
  | .freeSpot l i => lot.callAt l (fun lv => lv.freeAt i)
  | .levelFreeSpot l n => lot.callAt l (fun lv => lv.freeSpot n)

/-- A sequence of calls applied to a lot, in order. -/
def ParkingLot.run (lot : ParkingLot) : List LotOp → Option ParkingLot
  | [] => some lot
  | op :: ops =>
    match lot.step op with
    | some lot' => lot'.run ops
    | none => none

/-- The spot a call acts on. -/
def LotOp.target : LotOp → Nat × Nat
  | .parkVehicle l i _ => (l, i)
  | .freeSpot l i => (l, i)
  | .levelFreeSpot l n => (l, (n - 1).toNat)

/-- The effect of a call on the spot it acts on. -/
def LotOp.effect : LotOp → ParkingSpot → ParkingSpot
  | .parkVehicle _ _ vehicle => fun spot => spot.parkVehicle vehicle
  | .freeSpot _ _ => ParkingSpot.freeSpot
  | .levelFreeSpot _ _ => ParkingSpot.freeSpot

/-- Whether a call applies `freeSpot` to the spot behind the pointer `p`. -/
def LotOp.frees (op : LotOp) (p : Nat × Nat) : Bool :=
  match op with
  | .parkVehicle _ _ _ => false
  | .freeSpot l i => decide ((l, i) = p)
  | .levelFreeSpot l n => decide ((l, (n - 1).toNat) = p)

/-- Every spot of the lot is in a state a program can produce. -/
def ParkingLot.SpotsReachable (lot : ParkingLot) : Prop :=
  ∀ p s, lot.spotAt p = some s → s.Reachable

/-- Spot numbers follow the position in the vector: `spots[i]` carries the
number `i + 1`. -/
def ParkingLevel.Numbered (lv : ParkingLevel) : Prop :=
  ∀ (i : Nat) (s : ParkingSpot), lv.spots[i]? = some s → s.spotNumber = (i : Int) + 1

/-- The spot states reached from the constructor when every `parkVehicle`
call is given a non-null vehicle pointer. -/
inductive ParkingSpot.ReachableNonNull : ParkingSpot → Prop
  | ctor (spotNumber : Int) (size : VehicleSize) :
      ParkingSpot.ReachableNonNull (ParkingSpot.ctor spotNumber size)
  | parkVehicle (s : ParkingSpot) (vehicle : Vehicle) :
      ParkingSpot.ReachableNonNull s → ParkingSpot.ReachableNonNull (s.parkVehicle (some vehicle))
  | freeSpot (s : ParkingSpot) : ParkingSpot.ReachableNonNull s → ParkingSpot.ReachableNonNull s.freeSpot

/-! ## The type `double`

A `double` is an IEEE 754 binary64 value: a finite value, given by the
rational number it denotes (the two zeros denote the same number and are one
value here), an infinity or a NaN.  Arithmetic rounds the exact result to the
nearest representable value, ties to the even significand, and overflows to an
infinity. -/

/-- A value of the type `double`. -/
inductive double where
  | finite (value : ℚ)
  | inf (negative : Bool)
  | nan
  deriving DecidableEq

/-- Rounding to the nearest integer, a tie going to the even one. -/
def double.roundHalfEven (y : ℚ) : Int :=
  if y - (⌊y⌋ : Int) < 1 / 2 then ⌊y⌋
  else if 1 / 2 < y - (⌊y⌋ : Int) then ⌊y⌋ + 1
  else if ⌊y⌋ % 2 = 0 then ⌊y⌋ else ⌊y⌋ + 1

/-- The exponent of the unit in the last place of the binary64 values around
`x`: 52 below the binary exponent of `x`, and -1074 in the subnormal range. -/
def double.exponent (x : ℚ) : Int := max (Int.log 2 |x| - 52) (-1074)

/-- The multiple of the unit in the last place nearest to `x`, before the
check for overflow. -/
def double.roundFinite (x : ℚ) : ℚ :=
  (double.roundHalfEven (x / (2 : ℚ) ^ double.exponent x) : ℚ) * (2 : ℚ) ^ double.exponent x

/-- The binary64 value an exact result `x` is rounded to. -/
def double.round (x : ℚ) : double :=
  if |double.roundFinite x| < (2 : ℚ) ^ (1024 : Int) then double.finite (double.roundFinite x)
  else double.inf (decide (x < 0))

/-- The rationals binary64 represents exactly (below the overflow threshold):
an integer significand of at most 53 bits times a power of two not below
`2 ^ (-1074)`. -/
def double.Representable (q : ℚ) : Prop :=
  ∃ m e : Int, |m| < 2 ^ 53 ∧ -1074 ≤ e ∧ q = (m : ℚ) * (2 : ℚ) ^ e

/-- The conversion of an integer to `double`. -/
def double.ofInt (n : Int) : double := double.round (n : ℚ)

/-- The product `x * y` of two doubles. -/
def double.mul : double → double → double
  | double.nan, _ => double.nan
  | _, double.nan => double.nan
  | double.inf s, double.inf t => double.inf (s != t)
  | double.inf s, double.finite q =>
    if q = 0 then double.nan else double.inf (s != decide (q < 0))
  | double.finite q, double.inf s =>
    if q = 0 then double.nan else double.inf (s != decide (q < 0))
  | double.finite a, double.finite b => double.round (a * b)

/-- The quotient `x / c` of a double by a constant `c` that is a finite
non-zero double, such as `3600.0`. -/
def double.divBy (x : double) (c : ℚ) : double :=
  match x with
  | double.nan => double.nan
  | double.inf s => double.inf (s != decide (c < 0))
  | double.finite q => double.round (q / c)

/-! ## Fees -/

/-- `std::difftime(time1, time0)`: the seconds from `time0` to `time1`, the
integer difference converted to `double`. -/
def std.difftime (time1 time0 : Int) : double := double.ofInt (time1 - time0)

/-- `std::ceil`: the least integer not below `x`; it is exact, and an infinity
or a NaN is returned as it is. -/
def std.ceil : double → double
  | double.finite q => double.finite ((⌈q⌉ : Int) : ℚ)
  | double.inf s => double.inf s
  | double.nan => double.nan

/-- The class `HourlyRateStrategy`. -/
structure HourlyRateStrategy where
  hourlyRate : double
  deriving DecidableEq

/-- `HourlyRateStrategy::calculateFee`; the return type is `double`, an amount:
the member has no error result and no statement that throws. -/
def HourlyRateStrategy.calculateFee (s : HourlyRateStrategy) (entryTime exitTime : Int)
    (_size : VehicleSize) : double :=
  let durationInHours : double := (std.difftime exitTime entryTime).divBy 3600
  s.hourlyRate.mul (std.ceil durationInHours)

/-- The class `FlatRateStrategy`. -/
structure FlatRateStrategy where
  flatRate : double
  deriving DecidableEq

/-- `FlatRateStrategy::calculateFee`. -/
def FlatRateStrategy.calculateFee (s : FlatRateStrategy) (_entryTime _exitTime : Int)
    (_size : VehicleSize) : double :=
  s.flatRate

/-- The abstract class `FeeStrategy`: an object seen through a `FeeStrategy*`
is the override of its one pure virtual member, a `const` function of
`(entryTime, exitTime, size)`. -/
structure FeeStrategy where
  calculateFee : Int → Int → VehicleSize → double

/-- An `HourlyRateStrategy` seen through the base class. -/
def HourlyRateStrategy.toFeeStrategy (s : HourlyRateStrategy) : FeeStrategy :=
  { calculateFee := s.calculateFee }

/-- A `FlatRateStrategy` seen through the base class. -/
def FlatRateStrategy.toFeeStrategy (s : FlatRateStrategy) : FeeStrategy :=
  { calculateFee := s.calculateFee }

/-- Modelled from the spec: the class `ParkingTicket` is used by
`ParkingFeeCalculator::calculateFee` and declared nowhere in the source; the
spec's ticket records a ticket id, the vehicle, a spot reference, the entry
time and a snapshot of the vehicle size. -/
structure ParkingTicket where
  ticketId : Nat
  vehicle : Vehicle
  spot : Nat × Nat
  entryTime : Int
  vehicleSize : VehicleSize
  deriving DecidableEq

/-- Modelled from the spec: `ParkingTicket::getEntryTime`, which is absent from
the source, returns the recorded entry time. -/
def ParkingTicket.getEntryTime (t : ParkingTicket) : Int := t.entryTime

/-- Modelled from the spec: `ParkingTicket::getVehicleSize`, which is absent
from the source, returns the recorded size snapshot. -/
def ParkingTicket.getVehicleSize (t : ParkingTicket) : VehicleSize := t.vehicleSize

/-- The class `ParkingFeeCalculator`; its `FeeStrategy*` is taken to point to a
strategy object, as `calculateFee` dereferences it. -/
structure ParkingFeeCalculator where
  feeStrategy : FeeStrategy

/-- The constructor `ParkingFeeCalculator(FeeStrategy* strategy)`. -/
def ParkingFeeCalculator.ctor (strategy : FeeStrategy) : ParkingFeeCalculator :=
  { feeStrategy := strategy }

/-- `ParkingFeeCalculator::setStrategy`. -/
def ParkingFeeCalculator.setStrategy (c : ParkingFeeCalculator) (strategy : FeeStrategy) :
    ParkingFeeCalculator :=
  { c with feeStrategy := strategy }

/-- `ParkingFeeCalculator::calculateFee`: the value returned. -/
def ParkingFeeCalculator.calculateFee (c : ParkingFeeCalculator) (ticket : ParkingTicket)
    (exitTime : Int) : double :=
  c.feeStrategy.calculateFee ticket.getEntryTime exitTime ticket.getVehicleSize

/-- `ParkingFeeCalculator::calculateFee` as a step on the objects it is given:
the calculator and the ticket after the call, and the value returned.  The
member is `const`, its body is the one `return` statement and it reaches the
ticket only through the two getters, so it assigns to neither object. -/
def ParkingFeeCalculator.calculateFeeCall (c : ParkingFeeCalculator) (ticket : ParkingTicket)
    (exitTime : Int) : ParkingFeeCalculator × ParkingTicket × double :=
  (c, ticket, c.feeStrategy.calculateFee ticket.getEntryTime exitTime ticket.getVehicleSize)

/-- The calculator after the constructor and then a sequence of `setStrategy`
calls. -/
def ParkingFeeCalculator.configure (initial : FeeStrategy) (later : List FeeStrategy) :
    ParkingFeeCalculator :=
  later.foldl ParkingFeeCalculator.setStrategy (ParkingFeeCalculator.ctor initial)

/-! ## Further parking definitions -/

/-- The order of the enumeration as the specification states it,
`Small < Compact`: a size is at most another one when it is `Small` or the
other one is `Compact`. -/
def VehicleSize.atMost : VehicleSize → VehicleSize → Bool
  | .Small, _ => true
  | .Compact, .Compact => true
  | .Compact, .Small => false

/-- `ParkingSpot::canFitVehicle` as a step on the objects it is given: the
spot and the vehicle after the call, and the value returned.  The body is the
one `return` statement and reads the vehicle through `getSize`, so it assigns
to neither object. -/
def ParkingSpot.canFitVehicleCall (s : ParkingSpot) (vehicle : Vehicle) :
    ParkingSpot × Vehicle × Bool :=
  (s, vehicle, decide (vehicle.getSize.toInt ≤ s.size.toInt))

/-- One `<<` insertion into `std::cout`. -/
inductive Out where
  | str (s : String)
  | int (n : Int)
  deriving DecidableEq

/-- The state object `currentState` points to. -/
inductive State where
  | NoCashState
  | HasCashState
  | ItemSelectedState
  deriving DecidableEq

/-- `std::unordered_map<std::string,int>::find`: the value stored under a key,
the map being the list of its (key, value) entries. -/
def std.unordered_map.find : List (String × Int) → String → Option Int
  | [], _ => none
  | (k, v) :: rest, key => if k = key then some v else std.unordered_map.find rest key

/-- `operator[]` used as a read: the value under the key and the map
afterwards; a missing key is inserted with the value 0. -/
def std.unordered_map.index (m : List (String × Int)) (key : String) :
    Int × List (String × Int) :=
  match std.unordered_map.find m key with
  | some v => (v, m)
  | none => (0, m ++ [(key, 0)])

/-- `operator[]` used as an assignment target, `m[key] = value`. -/
def std.unordered_map.assign : List (String × Int) → String → Int → List (String × Int)
  | [], key, value => [(key, value)]
  | (k, v) :: rest, key, value =>
    if k = key then (k, value) :: rest else (k, v) :: std.unordered_map.assign rest key value

/-- The class `VendingMachine`. -/
structure VendingMachine where
  currentState : State
  currentCash : Int
  itemList : List (String × Int)
  out : List Out
  deriving DecidableEq

/-- The constructor `VendingMachine()`, writing to a fresh output. -/
def VendingMachine.ctor : VendingMachine :=
  { currentState := State.NoCashState, currentCash := 0,
    itemList := std.unordered_map.assign (std.unordered_map.assign [] "Soda" 20) "Coke" 5,
    out := [] }

/-- A statement `std::cout << a << b ...`. -/
def VendingMachine.cout (m : VendingMachine) (items : List Out) : VendingMachine :=
  { m with out := m.out ++ items }

/-- `VendingMachine::setState`. -/
def VendingMachine.setState (m : VendingMachine) (newState : State) : VendingMachine :=
  { m with currentState := newState }

/-- `VendingMachine::hasItem`: `itemList[item] > 0`; the value returned and the
machine afterwards (`operator[]` inserts a missing item). -/
def VendingMachine.hasItem (m : VendingMachine) (item : String) : Bool × VendingMachine :=
  (decide ((std.unordered_map.index m.itemList item).1 > 0),
    { m with itemList := (std.unordered_map.index m.itemList item).2 })

/-- `VendingMachine::getItemPrice`: the return type is `bool`, so `return 25`
converts 25 to `true`. -/
def VendingMachine.getItemPrice (_m : VendingMachine) (_item : String) : Bool :=
  decide ((25 : Int) ≠ 0)

/-- `VendingMachine::getCurrentCash`. -/
def VendingMachine.getCurrentCash (m : VendingMachine) : Int := m.currentCash

/-- `VendingMachine::getHasCashState`. -/
def VendingMachine.getHasCashState (_m : VendingMachine) : State := State.HasCashState

/-- `VendingMachine::getNoCashState`. -/
def VendingMachine.getNoCashState (_m : VendingMachine) : State := State.NoCashState

/-- `VendingMachine::getItemSelectedState`. -/
def VendingMachine.getItemSelectedState (_m : VendingMachine) : State := State.ItemSelectedState

/-- The integral promotion of a `bool` operand: `true` is 1, `false` is 0. -/
def std.promote (b : Bool) : Int := if b then 1 else 0

/-- `NoCashState::insertCash`. -/
def NoCashState.insertCash (cash : Int) (machine : VendingMachine) : VendingMachine :=
  (machine.cout [Out.str "Inserted amount: ", Out.int cash]).setState machine.getHasCashState

/-- `NoCashState::chooseItem`. -/
def NoCashState.chooseItem (_item : String) (machine : VendingMachine) : VendingMachine :=
  machine.cout [Out.str "please insert cash first"]

/-- `NoCashState::dispenseItem`. -/
def NoCashState.dispenseItem (machine : VendingMachine) : VendingMachine :=
  machine.cout [Out.str "no cash inserted, cannot dispesne item"]

/-- `HasCashState::insertCash`. -/
def HasCashState.insertCash (_cash : Int) (machine : VendingMachine) : VendingMachine :=
  machine.cout [Out.str "Cash already inserted, select an item"]

/-- `HasCashState::dispenseItem`. -/
def HasCashState.dispenseItem (machine : VendingMachine) : VendingMachine :=
  machine.cout [Out.str "No item chosen, choose an item"]

/-- `ItemSelectedState::insertCash`. -/
def ItemSelectedState.insertCash (_cash : Int) (machine : VendingMachine) : VendingMachine :=
  machine.cout [Out.str "Cash already inserted, select an item"]

/-- `ItemSelectedState::chooseItem`. -/
def ItemSelectedState.chooseItem (_item : String) (machine : VendingMachine) : VendingMachine :=
  machine.cout [Out.str "Item already selected"]

/-- `ItemSelectedState::dispenseItem`. -/
def ItemSelectedState.dispenseItem (machine : VendingMachine) : VendingMachine :=
  machine.setState machine.getNoCashState

/-- `VendingMachine::dispenseItem`: `currentState->dispenseItem(this)`. -/
def VendingMachine.dispenseItem (m : VendingMachine) : VendingMachine :=
  match m.currentState with
  | State.NoCashState => NoCashState.dispenseItem m
  | State.HasCashState => HasCashState.dispenseItem m
  | State.ItemSelectedState => ItemSelectedState.dispenseItem m

/-- `HasCashState::chooseItem`. -/
def HasCashState.chooseItem (item : String) (machine : VendingMachine) : VendingMachine :=
  if (machine.hasItem item).1 then
    if std.promote ((machine.hasItem item).2.getItemPrice item)
        ≤ (machine.hasItem item).2.getCurrentCash then
      ((machine.hasItem item).2.setState
        (machine.hasItem item).2.getItemSelectedState).dispenseItem
    else (machine.hasItem item).2
  else (machine.hasItem item).2.cout [Out.str "Item not available"]

/-- `VendingMachine::insertCash`: `currentCash += cash`, then
`currentState->insertCash(cash, this)`. -/
def VendingMachine.insertCash (m : VendingMachine) (cash : Int) : VendingMachine :=
  match m.currentState with
  | State.NoCashState => NoCashState.insertCash cash { m with currentCash := m.currentCash + cash }
  | State.HasCashState => HasCashState.insertCash cash { m with currentCash := m.currentCash + cash }
  | State.ItemSelectedState =>
    ItemSelectedState.insertCash cash { m with currentCash := m.currentCash + cash }

/-- `VendingMachine::chooseItem`: `currentState->chooseItem(item, this)`. -/
def VendingMachine.chooseItem (m : VendingMachine) (item : String) : VendingMachine :=
  match m.currentState with
  | State.NoCashState => NoCashState.chooseItem item m
  | State.HasCashState => HasCashState.chooseItem item m
  | State.ItemSelectedState => ItemSelectedState.chooseItem item m

/-- The stock the machine records for an item: the value under its key in
`itemList`, 0 for an item without an entry (what `operator[]` reads). -/
def VendingMachine.stock (m : VendingMachine) (item : String) : Int :=
  (std.unordered_map.find m.itemList item).getD 0

/-! ## File search (Filter pattern) -/

/-- The class `File`. -/
structure File where
  name : String
  extension : String
  size : Int
  deriving DecidableEq

/-- `File::getName`. -/
def File.getName (f : File) : String := f.name

/-- `File::getExtension`. -/
def File.getExtension (f : File) : String := f.extension

/-- `File::getSize`. -/
def File.getSize (f : File) : Int := f.size

/-- The loop shared by the three elementary filters: `filteredFiles` so far and
the files still to visit; a file passing the test is appended with
`push_back`. -/
def FileFilter.pushMatching (test : File → Bool) : List File → List File → List File
  | filteredFiles, [] => filteredFiles
  | filteredFiles, file :: rest =>
    if test file then FileFilter.pushMatching test (filteredFiles ++ [file]) rest
    else FileFilter.pushMatching test filteredFiles rest

/-- `ExtensionFilter::meetCriteria`. -/
def ExtensionFilter.meetCriteria (extension : String) (files : List File) : List File :=
  FileFilter.pushMatching (fun file => decide (file.getExtension = extension)) [] files

/-- `NameFilter::meetCriteria`. -/
def NameFilter.meetCriteria (name : String) (files : List File) : List File :=
  FileFilter.pushMatching (fun file => decide (file.getName = name)) [] files

/-- `SizeFilter::meetCriteria`. -/
def SizeFilter.meetCriteria (size : Int) (files : List File) : List File :=
  FileFilter.pushMatching (fun file => decide (file.getSize = size)) [] files

/-- The class `Filter` (named `FileFilter` here, `Filter` being taken by the
library): the filters built from `ExtensionFilter`, `NameFilter`, `SizeFilter` and
`AndFilter`; the two `Filter*` members of an `AndFilter` are the filters they
point to. -/
inductive FileFilter where
  | ExtensionFilter (extension : String)
  | NameFilter (name : String)
  | SizeFilter (size : Int)
  | AndFilter (filter1 filter2 : FileFilter)

/-- The virtual `Filter::meetCriteria`; for an `AndFilter` it is
`filter2->meetCriteria(filter1->meetCriteria(files))`. -/
def FileFilter.meetCriteria : FileFilter → List File → List File
  | FileFilter.ExtensionFilter extension, files => ExtensionFilter.meetCriteria extension files
  | FileFilter.NameFilter name, files => NameFilter.meetCriteria name files
  | FileFilter.SizeFilter size, files => SizeFilter.meetCriteria size files
  | FileFilter.AndFilter filter1 filter2, files =>
    filter2.meetCriteria (filter1.meetCriteria files)

/-- The criterion a filter stands for, as a property of one file: the
extension, name or size is the given one, and for an `AndFilter` both criteria
hold. -/
def FileFilter.satisfies : FileFilter → File → Bool
  | FileFilter.ExtensionFilter extension, file => decide (file.extension = extension)
  | FileFilter.NameFilter name, file => decide (file.name = name)
  | FileFilter.SizeFilter size, file => decide (file.size = size)
  | FileFilter.AndFilter filter1 filter2, file => filter1.satisfies file && filter2.satisfies file

/-- The five files of the filter scenario of `main`. -/
def FileFilter.mainFiles : List File :=
  [⟨"file1", "txt", 100⟩, ⟨"file2", "pdf", 200⟩, ⟨"file3", "txt", 150⟩,
    ⟨"file4", "doc", 250⟩, ⟨"file5", "txt", 100⟩]

/-! ## Text editor (Command pattern)

A `std::string` is a `String`, its `length()` the number of its characters.
All commands of a session point to the one `TextEditor` the session holds. -/

/-- The class `TextEditor`. -/
structure TextEditor where
  text : String
  deriving DecidableEq

/-- `TextEditor::writeText`: `text += newText`. -/
def TextEditor.writeText (e : TextEditor) (newText : String) : TextEditor :=
  { text := e.text ++ newText }

/-- `TextEditor::removeText`: `text.erase(text.length() - length, length)`.
The position is computed in the unsigned type of `length()`, so for
`length` negative or above `text.length()` it lies past the end and `erase`
throws `std::out_of_range` (`none`); otherwise the last `length` characters go. -/
def TextEditor.removeText (e : TextEditor) (length : Int) : Option TextEditor :=
  if 0 ≤ length ∧ length ≤ (e.text.length : Int) then
    some { text := String.mk (e.text.data.take (e.text.length - length.toNat)) }
  else none

/-- The class `WriteCommand`, the `Command` of the fragment. -/
structure WriteCommand where
  text : String
  deriving DecidableEq

/-- `WriteCommand::execute`. -/
def WriteCommand.execute (c : WriteCommand) (textEditor : TextEditor) : TextEditor :=
  textEditor.writeText c.text

/-- The conversion of a `std::size_t` value to the 32-bit `int`: the value
modulo `2 ^ 32 = 4294967296`, the residues from `2 ^ 31 = 2147483648` on
standing for the negative numbers down to `-2 ^ 31`. -/
def std.narrowToInt (n : Nat) : Int :=
  if n % 4294967296 < 2147483648 then ((n % 4294967296 : Nat) : Int)
  else ((n % 4294967296 : Nat) : Int) - 4294967296

/-- `WriteCommand::undo`: `text.length()` is passed for the `int` parameter of
`removeText`. -/
def WriteCommand.undo (c : WriteCommand) (textEditor : TextEditor) : Option TextEditor :=
  textEditor.removeText (std.narrowToInt c.text.length)

/-- The class `CommandManagaer`; a stack is the list of its elements, the top
first. -/
structure CommandManagaer where
  commandHistory : List WriteCommand
  redo : List WriteCommand
  deriving DecidableEq

/-- A fresh `CommandManagaer`: both stacks empty. -/
def CommandManagaer.ctor : CommandManagaer := { commandHistory := [], redo := [] }

/-- `CommandManagaer::executeCommand`, on the manager and the editor. -/
def CommandManagaer.executeCommand (m : CommandManagaer) (editor : TextEditor)
    (command : WriteCommand) : CommandManagaer × TextEditor :=
  ({ m with commandHistory := command :: m.commandHistory }, command.execute editor)

/-- `CommandManagaer::undo`; `top()` of an empty stack is undefined (`none`). -/
def CommandManagaer.undo (m : CommandManagaer) (editor : TextEditor) :
    Option (CommandManagaer × TextEditor) :=
  match m.commandHistory with
  | [] => none
  | lastCommand :: rest =>
    match lastCommand.undo editor with
    | some editor' => some ({ commandHistory := rest, redo := lastCommand :: m.redo }, editor')
    | none => none

/-- `CommandManagaer::redoCommand`; `top()` of an empty stack is undefined
(`none`). -/
def CommandManagaer.redoCommand (m : CommandManagaer) (editor : TextEditor) :
    Option (CommandManagaer × TextEditor) :=
  match m.redo with
  | [] => none
  | redoCommand :: rest =>
    some ({ commandHistory := redoCommand :: m.commandHistory, redo := rest },
      redoCommand.execute editor)

/-- A sequence of `executeCommand` calls, in order. -/
def CommandManagaer.executeAll :
    CommandManagaer × TextEditor → List WriteCommand → CommandManagaer × TextEditor
  | st, [] => st
  | st, command :: rest =>
    CommandManagaer.executeAll (st.1.executeCommand st.2 command) rest

/-- A number of `undo` calls in a row. -/
def CommandManagaer.undoTimes :
    Nat → CommandManagaer × TextEditor → Option (CommandManagaer × TextEditor)
  | 0, st => some st
  | k + 1, st =>
    match st.1.undo st.2 with
    | some st' => CommandManagaer.undoTimes k st'
    | none => none

/-- A number of `redoCommand` calls in a row. -/
def CommandManagaer.redoTimes :
    Nat → CommandManagaer × TextEditor → Option (CommandManagaer × TextEditor)
  | 0, st => some st
  | j + 1, st =>
    match st.1.redoCommand st.2 with
    | some st' => CommandManagaer.redoTimes j st'
    | none => none

/-- The session of the claim: the commands executed on a fresh manager and an
editor holding `s`, then `k` undos, then `j` redos. -/
def CommandManagaer.session (s : String) (commands : List WriteCommand) (k j : Nat) :
    Option (CommandManagaer × TextEditor) :=
  match CommandManagaer.undoTimes k
      (CommandManagaer.executeAll (CommandManagaer.ctor, { text := s }) commands) with
  | some st => CommandManagaer.redoTimes j st
  | none => none

/-- The texts of a list of commands, one after the other. -/
def WriteCommand.texts : List WriteCommand → String
  | [] => ""
  | c :: rest => c.text ++ WriteCommand.texts rest

/-! ## Loggers (Chain of Responsibility)

A `Logger*` is the logger it points to, `none` for `nullptr`, so a logger
value carries the whole finite chain behind it. -/

/-- The three concrete logger classes. -/
inductive LoggerClass where
  | ConsoleLogger
  | FileLogger
  | ErrorLogger
  deriving DecidableEq

/-- The class `Logger` with the `logLevel` member of its three derived
classes. -/
inductive Logger where
  | mk (cls : LoggerClass) (logLevel : Int) (nextLogger : Option Logger)

/-- The constructors `ConsoleLogger(level)`, `FileLogger(level)` and
`ErrorLogger(level)`: `nextLogger` starts as `nullptr`. -/
def Logger.ctor (cls : LoggerClass) (level : Int) : Logger := Logger.mk cls level none

/-- `Logger::setNextLogger`. -/
def Logger.setNextLogger : Logger → Option Logger → Logger
  | Logger.mk cls logLevel _, next => Logger.mk cls logLevel next

/-- The override of `canHandle` in each of the three classes. -/
def Logger.canHandle : Logger → Int → Bool
  | Logger.mk LoggerClass.ConsoleLogger logLevel _, level => decide (level ≥ logLevel)
  | Logger.mk LoggerClass.FileLogger logLevel _, level => decide (level ≥ logLevel)
  | Logger.mk LoggerClass.ErrorLogger logLevel _, level => decide (level ≥ logLevel)

/-- The override of `write` in each of the three classes, on the output so
far: `std::cout << "msg" << std::endl`, the string literal and not the
parameter `msg`. -/
def Logger.write : Logger → String → List Out → List Out
  | Logger.mk LoggerClass.ConsoleLogger _ _, _msg, out => out ++ [Out.str "msg", Out.str "\n"]
  | Logger.mk LoggerClass.FileLogger _ _, _msg, out => out ++ [Out.str "msg", Out.str "\n"]
  | Logger.mk LoggerClass.ErrorLogger _ _, _msg, out => out ++ [Out.str "msg", Out.str "\n"]

/-- `Logger::logMessage`, on the output so far. -/
def Logger.logMessage : Logger → Int → String → List Out → List Out
  | Logger.mk cls logLevel none, level, msg, out =>
    if (Logger.mk cls logLevel none).canHandle level then
      (Logger.mk cls logLevel none).write msg out
    else out
  | Logger.mk cls logLevel (some next), level, msg, out =>
    next.logMessage level msg
      (if (Logger.mk cls logLevel (some next)).canHandle level then
        (Logger.mk cls logLevel (some next)).write msg out
      else out)

/-- The log levels of the loggers of a chain, first logger first. -/
def Logger.levels : Logger → List Int
  | Logger.mk _ logLevel none => [logLevel]
  | Logger.mk _ logLevel (some next) => logLevel :: next.levels

/-- The chain of `main`: the error logger (level 3), then the file logger
(level 2), then the console logger (level 1). -/
def Logger.mainChain : Logger :=
  (Logger.ctor LoggerClass.ErrorLogger 3).setNextLogger
    (some ((Logger.ctor LoggerClass.FileLogger 2).setNextLogger
      (some (Logger.ctor LoggerClass.ConsoleLogger 1))))

/-! ## Weather station (Observer pattern)

An `Observer*` is the number of the observer object it points to; `update` is
pure virtual in `Observer`, and a call of it is recorded with its arguments. -/

/-- A call `ob->update(temp, humidity, pressure)`. -/
structure UpdateCall where
  observer : Nat
  temp : Int
  humidity : Int
  pressure : Int
  deriving DecidableEq

/-- The class `Weatherdata`. -/
structure Weatherdata where
  temp : Int
  humid : Int
  pres : Int
  observers : List Nat
  deriving DecidableEq

/-- The object `new Weatherdata()` creates: the class has no constructor of its
own, so the members are value-initialised. -/
def Weatherdata.ctor : Weatherdata := { temp := 0, humid := 0, pres := 0, observers := [] }

/-- `Weatherdata::registerObserver`. -/
def Weatherdata.registerObserver (w : Weatherdata) (ob : Nat) : Weatherdata :=
  { w with observers := w.observers ++ [ob] }

/-- `Weatherdata::removeObserver`: the erase-remove idiom. -/
def Weatherdata.removeObserver (w : Weatherdata) (ob : Nat) : Weatherdata :=
  { w with observers := w.observers.filter (fun o => decide (o ≠ ob)) }

/-- The loop of `Weatherdata::notifyAll` over the observers still to visit, on
the calls recorded so far. -/
def Weatherdata.notifyLoop (w : Weatherdata) : List Nat → List UpdateCall → List UpdateCall
  | [], calls => calls
  | ob :: rest, calls => w.notifyLoop rest (calls ++ [⟨ob, w.temp, w.humid, w.pres⟩])

/-- `Weatherdata::notifyAll`, on the calls recorded so far. -/
def Weatherdata.notifyAll (w : Weatherdata) (calls : List UpdateCall) : List UpdateCall :=
  w.notifyLoop w.observers calls

/-- `Weatherdata::setMeasurements`: in `temp = temp; humid = humid; pres = pres;`
both sides name the parameter, which hides the member, so the three statements
assign each parameter to itself and no member is written; `notifyAll` follows. -/
def Weatherdata.setMeasurements (w : Weatherdata) (_temp _humid _pres : Int)
    (calls : List UpdateCall) : Weatherdata × List UpdateCall :=
  (w, w.notifyAll calls)

/-- The subject of `main` with its two displays registered, numbered 0 and 1. -/
def Weatherdata.mainSubject : Weatherdata :=
  (Weatherdata.ctor.registerObserver 0).registerObserver 1

/-! ## Calls on one level -/

/-- The calls of the fragment that change a spot of a level: `parkVehicle` and
`freeSpot` through a pointer to spot `spot`, and
`ParkingLevel::freeSpot(spotNumber)`. -/
inductive LevelOp where
  | parkVehicle (spot : Nat) (vehicle : Option Vehicle)
  | freeSpot (spot : Nat)
  | levelFreeSpot (spotNumber : Int)
  deriving DecidableEq

/-- One call applied to a level. -/
def ParkingLevel.step (lv : ParkingLevel) : LevelOp → Option ParkingLevel
  | LevelOp.parkVehicle i vehicle => lv.parkAt i vehicle
  | LevelOp.freeSpot i => lv.freeAt i
  | LevelOp.levelFreeSpot n => lv.freeSpot n

/-- A sequence of calls applied to a level, in order. -/
def ParkingLevel.run (lv : ParkingLevel) : List LevelOp → Option ParkingLevel
  | [] => some lv
  | op :: ops =>
    match lv.step op with
    | some lv' => lv'.run ops
    | none => none

/-- The spot numbers of a level, in the order of the `spots` vector. -/
def ParkingLevel.spotNumbers (lv : ParkingLevel) : List Int :=
  lv.spots.map ParkingSpot.getSpotNumber

/-! ## Lemmas on the spot search -/

theorem ParkingLevel.findFrom_some (vehicle : Vehicle) (xs : List ParkingSpot) (k i : Nat)
    (h : ParkingLevel.findFrom vehicle xs k = some i) :
    ∃ j s, i = k + j ∧ xs[j]? = some s ∧ s.suits vehicle ∧
      ∀ j' t, j' < j → xs[j']? = some t → ¬ t.suits vehicle := by
  induction xs generalizing k with
  | nil => simp [ParkingLevel.findFrom] at h
  | cons x rest ih =>
    unfold ParkingLevel.findFrom at h
    by_cases hx : (x.canFitVehicle vehicle && x.getAvailability) = true
    · rw [if_pos hx] at h
      refine ⟨0, x, ?_, by simp, ?_, ?_⟩
      · simpa using h.symm
      · simpa [ParkingSpot.suits] using hx
      · intro j' t hj'; omega
    · rw [if_neg hx] at h
      obtain ⟨j, s, hi, hs, hsuit, hmin⟩ := ih (k + 1) h
      refine ⟨j + 1, s, by omega, by simpa using hs, hsuit, ?_⟩
      intro j' t hj' ht
      cases j' with
      | zero =>
        simp at ht
        subst ht
        simpa [ParkingSpot.suits] using hx
      | succ n =>
        simp at ht
        exact hmin n t (by omega) ht

theorem ParkingLevel.findFrom_none (vehicle : Vehicle) (xs : List ParkingSpot) (k : Nat) :
    ParkingLevel.findFrom vehicle xs k = none ↔ ∀ s ∈ xs, ¬ s.suits vehicle := by
  induction xs generalizing k with
  | nil => simp [ParkingLevel.findFrom]
  | cons x rest ih =>
    unfold ParkingLevel.findFrom
    by_cases hx : (x.canFitVehicle vehicle && x.getAvailability) = true
    · rw [if_pos hx]
      have hs : x.suits vehicle := by simpa [ParkingSpot.suits] using hx
      constructor
      · intro h; cases h
      · intro h; exact absurd hs (h x (List.mem_cons_self x rest))
    · rw [if_neg hx, ih (k + 1)]
      simp only [List.mem_cons, forall_eq_or_imp, iff_and_self]
      intro _
      simpa [ParkingSpot.suits] using hx

/-! ## Lemmas on the numbering of a level -/

theorem ParkingLevel.ctorLoop_getElem? (todo : Nat) (i : Int) (j : Nat) (s : ParkingSpot)
    (h : (ParkingLevel.ctorLoop todo i)[j]? = some s) :
    s = ParkingSpot.ctor (i + (j : Int) + 1) VehicleSize.Compact := by
  induction todo generalizing i j with
  | zero => simp [ParkingLevel.ctorLoop] at h
  | succ n ih =>
    unfold ParkingLevel.ctorLoop at h
    cases j with
    | zero => simp at h; simp [← h]
    | succ m =>
      simp at h
      have := ih (i + 1) m h
      rw [this]; congr 1; push_cast; ring

theorem ParkingLevel.callAt_spots (lv lv' : ParkingLevel) (i : Nat)
    (m : ParkingSpot → ParkingSpot) (h : lv.callAt i m = some lv') :
    ∃ old, lv.spots[i]? = some old ∧ lv'.levelNumber = lv.levelNumber ∧
      lv'.spots = lv.spots.set i (m old) ∧
      ∀ j, lv'.spots[j]? = if j = i then some (m old) else lv.spots[j]? := by
  unfold ParkingLevel.callAt at h
  split at h
  · rename_i spot hspot
    cases h
    refine ⟨spot, hspot, rfl, rfl, ?_⟩
    intro j
    have hlt : i < lv.spots.length := by
      rcases Nat.lt_or_ge i lv.spots.length with hl | hl
      · exact hl
      · rw [List.getElem?_eq_none hl] at hspot; cases hspot
    by_cases hji : j = i
    · subst hji
      simp [List.getElem?_set_self hlt]
    · simp [hji, List.getElem?_set_ne (Ne.symm hji)]
  · cases h

theorem ParkingLevel.callAt_numbered (lv lv' : ParkingLevel) (i : Nat)
    (m : ParkingSpot → ParkingSpot) (hm : ∀ s, (m s).spotNumber = s.spotNumber)
    (h : lv.callAt i m = some lv') (hnum : lv.Numbered) : lv'.Numbered := by
  obtain ⟨old, hold, _, _, hget⟩ := ParkingLevel.callAt_spots lv lv' i m h
  intro j s hs
  rw [hget j] at hs
  by_cases hji : j = i
  · subst hji
    simp at hs
    rw [← hs, hm]
    exact hnum j old hold
  · simp [hji] at hs
    exact hnum j s hs

theorem ParkingLevel.Reachable.numbered {lv : ParkingLevel} (h : lv.Reachable) : lv.Numbered := by
  induction h with
  | ctor levelNumber numSpots =>
    intro i s hs
    have := ParkingLevel.ctorLoop_getElem? _ _ _ _ hs
    simp [this, ParkingSpot.ctor]
  | parkAt lv lv' i vehicle _ hp ih =>
    exact ParkingLevel.callAt_numbered lv lv' i (fun spot => spot.parkVehicle vehicle)
      (fun _ => rfl) hp ih
  | freeAt lv lv' i _ hp ih =>
    exact ParkingLevel.callAt_numbered lv lv' i ParkingSpot.freeSpot (fun _ => rfl) hp ih
  | freeSpot lv lv' n _ hp ih =>
    unfold ParkingLevel.freeSpot at hp
    split at hp
    · exact ParkingLevel.callAt_numbered lv lv' _ ParkingSpot.freeSpot (fun _ => rfl) hp ih
    · cases hp

/-! ## Lemmas on calls applied to a lot -/

theorem ParkingLot.callAt_spotAt (lot lot' : ParkingLot) (l i : Nat)
    (m : ParkingSpot → ParkingSpot)
    (h : lot.callAt l (fun lv => lv.callAt i m) = some lot') :
    (∃ s, lot.spotAt (l, i) = some s) ∧
      ∀ p, lot'.spotAt p = if p = (l, i) then (lot.spotAt p).map m else lot.spotAt p := by
  unfold ParkingLot.callAt at h
  split at h
  · rename_i lv hlv
    split at h
    · rename_i lv' hlv'
      cases h
      obtain ⟨old, hold, _, _, hget⟩ := ParkingLevel.callAt_spots lv lv' i m hlv'
      have hlt : l < lot.levels.length := by
        rcases Nat.lt_or_ge l lot.levels.length with hl | hl
        · exact hl
        · rw [List.getElem?_eq_none hl] at hlv; cases hlv
      refine ⟨⟨old, by simp [ParkingLot.spotAt, hlv, ParkingLevel.spotAt, hold]⟩, ?_⟩
      rintro ⟨l', i'⟩
      by_cases hl' : l' = l
      · subst hl'
        by_cases hi' : i' = i
        · subst hi'
          simp [ParkingLot.spotAt, ParkingLevel.spotAt, List.getElem?_set_self hlt, hlv, hget, hold]
        · simp [ParkingLot.spotAt, ParkingLevel.spotAt, List.getElem?_set_self hlt, hlv, hget, hi']
      · have hne : ¬ ((l', i') = (l, i)) := by
          intro hc; exact hl' (congrArg Prod.fst hc)
        simp only [hne, if_false]
        simp [ParkingLot.spotAt, List.getElem?_set_ne (Ne.symm hl')]
    · cases h
  · cases h

theorem ParkingLot.step_spotAt (lot lot' : ParkingLot) (op : LotOp)
    (h : lot.step op = some lot') :
    (∃ s, lot.spotAt op.target = some s) ∧
      ∀ p, lot'.spotAt p =
        if p = op.target then (lot.spotAt p).map op.effect else lot.spotAt p := by
  cases op with
  | parkVehicle l i vehicle =>
    exact ParkingLot.callAt_spotAt lot lot' l i (fun spot => spot.parkVehicle vehicle) h
  | freeSpot l i =>
    exact ParkingLot.callAt_spotAt lot lot' l i ParkingSpot.freeSpot h
  | levelFreeSpot l n =>
    by_cases hn : 1 ≤ n
    · have h' : lot.callAt l (fun lv => lv.callAt (n - 1).toNat ParkingSpot.freeSpot)
          = some lot' := by
        simpa [ParkingLot.step, ParkingLevel.freeSpot, hn] using h
      exact ParkingLot.callAt_spotAt lot lot' l (n - 1).toNat ParkingSpot.freeSpot h'
    · exfalso
      simp only [ParkingLot.step, ParkingLevel.freeSpot, hn, if_false] at h
      unfold ParkingLot.callAt at h
      split at h <;> cases h

theorem ParkingLot.run_append (lot : ParkingLot) (pre post : List LotOp) :
    lot.run (pre ++ post) =
      match lot.run pre with
      | some mid => mid.run post
      | none => none := by
  induction pre generalizing lot with
  | nil => simp [ParkingLot.run]
  | cons op rest ih =>
    simp only [List.cons_append, ParkingLot.run]
    cases lot.step op with
    | none => rfl
    | some lot1 => exact ih lot1

theorem ParkingLot.run_unavailable (lot lot' : ParkingLot) (ops : List LotOp) (p : Nat × Nat)
    (s : ParkingSpot) (hrun : lot.run ops = some lot')
    (hops : ∀ op ∈ ops, op.frees p = false)
    (hs : lot.spotAt p = some s) (hav : s.isAvailable = false) :
    ∃ s', lot'.spotAt p = some s' ∧ s'.isAvailable = false := by
  induction ops generalizing lot s with
  | nil =>
    simp only [ParkingLot.run, Option.some.injEq] at hrun
    subst hrun
    exact ⟨s, hs, hav⟩
  | cons op rest ih =>
    simp only [ParkingLot.run] at hrun
    cases hstep : lot.step op with
    | none => rw [hstep] at hrun; cases hrun
    | some lot1 =>
      rw [hstep] at hrun
      obtain ⟨_, hget⟩ := ParkingLot.step_spotAt lot lot1 op hstep
      have hfree := hops op (List.mem_cons_self op rest)
      have hrest : ∀ o ∈ rest, o.frees p = false := fun o ho => hops o (List.mem_cons_of_mem op ho)
      by_cases hp : p = op.target
      · have h1 : lot1.spotAt p = some (op.effect s) := by
          rw [hget p, if_pos hp, hs]; rfl
        refine ih lot1 (op.effect s) hrun hrest h1 ?_
        cases op with
        | parkVehicle l i vehicle => rfl
        | freeSpot l i => simp [LotOp.frees, LotOp.target] at hfree hp; exact absurd hp.symm hfree
        | levelFreeSpot l n =>
          simp [LotOp.frees, LotOp.target] at hfree hp; exact absurd hp.symm hfree
      · have h1 : lot1.spotAt p = some s := by
          rw [hget p, if_neg hp, hs]
        exact ih lot1 s hrun hrest h1 hav

theorem ParkingSpot.Reachable.no_occupant {s : ParkingSpot} (h : s.Reachable) :
    s.isAvailable = true → s.currentVehicle = none := by
  induction h with
  | ctor n size => intro _; rfl
  | parkVehicle s vehicle _ _ => intro hav; simp [ParkingSpot.parkVehicle] at hav
  | freeSpot s _ _ => intro _; rfl

theorem ParkingLot.run_spotsReachable (lot lot' : ParkingLot) (ops : List LotOp)
    (hrun : lot.run ops = some lot') (h : lot.SpotsReachable) : lot'.SpotsReachable := by
  induction ops generalizing lot with
  | nil =>
    simp only [ParkingLot.run, Option.some.injEq] at hrun
    subst hrun
    exact h
  | cons op rest ih =>
    simp only [ParkingLot.run] at hrun
    cases hstep : lot.step op with
    | none => rw [hstep] at hrun; cases hrun
    | some lot1 =>
      rw [hstep] at hrun
      obtain ⟨_, hget⟩ := ParkingLot.step_spotAt lot lot1 op hstep
      refine ih lot1 hrun ?_
      intro p s hs
      rw [hget p] at hs
      by_cases hp : p = op.target
      · rw [if_pos hp] at hs
        cases hold : lot.spotAt p with
        | none => rw [hold] at hs; cases hs
        | some old =>
          rw [hold] at hs
          simp only [Option.map_some', Option.some.injEq] at hs
          subst hs
          have hr := h p old hold
          cases op with
          | parkVehicle l i vehicle => exact ParkingSpot.Reachable.parkVehicle old vehicle hr
          | freeSpot l i => exact ParkingSpot.Reachable.freeSpot old hr
          | levelFreeSpot l n => exact ParkingSpot.Reachable.freeSpot old hr
      · rw [if_neg hp] at hs
        exact h p s hs

theorem ParkingLevel.callAt_spots_reachable (lv lv' : ParkingLevel) (i : Nat)
    (m : ParkingSpot → ParkingSpot) (hm : ∀ s, s.Reachable → (m s).Reachable)
    (h : lv.callAt i m = some lv')
    (hreach : ∀ (j : Nat) (s : ParkingSpot), lv.spots[j]? = some s → s.Reachable) :
    ∀ (j : Nat) (s : ParkingSpot), lv'.spots[j]? = some s → s.Reachable := by
  obtain ⟨old, hold, _, _, hget⟩ := ParkingLevel.callAt_spots lv lv' i m h
  intro j s hs
  rw [hget j] at hs
  by_cases hji : j = i
  · simp [hji] at hs
    rw [← hs]
    exact hm old (hreach i old hold)
  · simp [hji] at hs
    exact hreach j s hs

theorem ParkingLevel.Reachable.spots_reachable {lv : ParkingLevel} (h : lv.Reachable) :
    ∀ (j : Nat) (s : ParkingSpot), lv.spots[j]? = some s → s.Reachable := by
  induction h with
  | ctor levelNumber numSpots =>
    intro j s hs
    rw [ParkingLevel.ctorLoop_getElem? _ _ _ _ hs]
    exact ParkingSpot.Reachable.ctor _ _
  | parkAt lv lv' i vehicle _ hp ih =>
    exact ParkingLevel.callAt_spots_reachable lv lv' i (fun spot => spot.parkVehicle vehicle)
      (fun s hs => ParkingSpot.Reachable.parkVehicle s vehicle hs) hp ih
  | freeAt lv lv' i _ hp ih =>
    exact ParkingLevel.callAt_spots_reachable lv lv' i ParkingSpot.freeSpot
      (fun s hs => ParkingSpot.Reachable.freeSpot s hs) hp ih
  | freeSpot lv lv' n _ hp ih =>
    unfold ParkingLevel.freeSpot at hp
    split at hp
    · exact ParkingLevel.callAt_spots_reachable lv lv' _ ParkingSpot.freeSpot
        (fun s hs => ParkingSpot.Reachable.freeSpot s hs) hp ih
    · cases hp

theorem ParkingSpot.park_free_of_free (s : ParkingSpot) (vehicle : Option Vehicle)
    (hav : s.isAvailable = true) (hocc : s.currentVehicle = none) :
    (s.parkVehicle vehicle).freeSpot = s := by
  cases s
  simp only [ParkingSpot.parkVehicle, ParkingSpot.freeSpot] at *
  simp [hav, hocc]

theorem ParkingLevel.set_getElem? (xs : List ParkingSpot) (i : Nat) (s : ParkingSpot)
    (h : xs[i]? = some s) : xs.set i s = xs := by
  apply List.ext_getElem?
  intro j
  by_cases hji : i = j
  · subst hji
    have hlt : i < xs.length := by
      rcases Nat.lt_or_ge i xs.length with hl | hl
      · exact hl
      · rw [List.getElem?_eq_none hl] at h; cases h
    rw [List.getElem?_set_self hlt, h]
  · rw [List.getElem?_set_ne hji]

/-! ## Properties of the parking fragment -/

/-- C1: on a level built by the `ParkingLevel` constructor and then changed
only by parking in and freeing spots, `findAvailableSpot` returns a spot that
fits the vehicle and is available and whose `spotNumber` is strictly below that
of every other fitting available spot of the level; it returns `nullptr`
exactly when no spot of the level is both fitting and available. -/
theorem ParkingLevel.findAvailableSpot_lowest (lv : ParkingLevel) (hlv : lv.Reachable)
    (vehicle : Vehicle) :
    (∀ i, lv.findAvailableSpot vehicle = some i →
      ∃ s, lv.spotAt i = some s ∧ s.suits vehicle ∧
        ∀ j t, lv.spotAt j = some t → t.suits vehicle → j ≠ i →
          s.getSpotNumber < t.getSpotNumber) ∧
    (lv.findAvailableSpot vehicle = none ↔ ∀ s ∈ lv.spots, ¬ s.suits vehicle) := by
  refine ⟨?_, ParkingLevel.findFrom_none vehicle lv.spots 0⟩
  intro i hi
  obtain ⟨j, s, hij, hs, hsuit, hmin⟩ := ParkingLevel.findFrom_some vehicle lv.spots 0 i hi
  have hij' : i = j := by omega
  subst hij'
  refine ⟨s, hs, hsuit, ?_⟩
  intro j t ht htsuit hne
  have hnum := hlv.numbered
  have h1 := hnum i s hs
  have h2 := hnum j t ht
  have hge : ¬ j < i := fun hlt => hmin j t hlt ht htsuit
  simp only [ParkingSpot.getSpotNumber, h1, h2]
  omega

theorem ParkingLevel.findAvailableSpot_lowest_witness :
    (ParkingLevel.mk 0 [(ParkingSpot.ctor 1 VehicleSize.Compact).parkVehicle
        (some ⟨"KA-01", VehicleSize.Small⟩), ParkingSpot.ctor 2 VehicleSize.Compact]).Reachable ∧
    ((∀ i, (ParkingLevel.mk 0 [(ParkingSpot.ctor 1 VehicleSize.Compact).parkVehicle
        (some ⟨"KA-01", VehicleSize.Small⟩), ParkingSpot.ctor 2 VehicleSize.Compact]).findAvailableSpot
          ⟨"KA-02", VehicleSize.Compact⟩ = some i →
      ∃ s, (ParkingLevel.mk 0 [(ParkingSpot.ctor 1 VehicleSize.Compact).parkVehicle
        (some ⟨"KA-01", VehicleSize.Small⟩), ParkingSpot.ctor 2 VehicleSize.Compact]).spotAt i = some s ∧
        s.suits ⟨"KA-02", VehicleSize.Compact⟩ ∧
        ∀ j t, (ParkingLevel.mk 0 [(ParkingSpot.ctor 1 VehicleSize.Compact).parkVehicle
          (some ⟨"KA-01", VehicleSize.Small⟩), ParkingSpot.ctor 2 VehicleSize.Compact]).spotAt j = some t →
          t.suits ⟨"KA-02", VehicleSize.Compact⟩ → j ≠ i → s.getSpotNumber < t.getSpotNumber) ∧
    ((ParkingLevel.mk 0 [(ParkingSpot.ctor 1 VehicleSize.Compact).parkVehicle
        (some ⟨"KA-01", VehicleSize.Small⟩), ParkingSpot.ctor 2 VehicleSize.Compact]).findAvailableSpot
          ⟨"KA-02", VehicleSize.Compact⟩ = none ↔
      ∀ s ∈ (ParkingLevel.mk 0 [(ParkingSpot.ctor 1 VehicleSize.Compact).parkVehicle
        (some ⟨"KA-01", VehicleSize.Small⟩), ParkingSpot.ctor 2 VehicleSize.Compact]).spots,
        ¬ s.suits ⟨"KA-02", VehicleSize.Compact⟩)) :=
  have hlv : (ParkingLevel.mk 0 [(ParkingSpot.ctor 1 VehicleSize.Compact).parkVehicle
      (some ⟨"KA-01", VehicleSize.Small⟩), ParkingSpot.ctor 2 VehicleSize.Compact]).Reachable :=
    ParkingLevel.Reachable.parkAt (ParkingLevel.ctor 0 2) _ 0 (some ⟨"KA-01", VehicleSize.Small⟩)
      (ParkingLevel.Reachable.ctor 0 2) (by decide)
  ⟨hlv, ParkingLevel.findAvailableSpot_lowest _ hlv ⟨"KA-02", VehicleSize.Compact⟩⟩

/-! ### Allocation across the lot -/

theorem ParkingLevel.findAvailableSpot_some_suits (lv : ParkingLevel) (vehicle : Vehicle) (i : Nat)
    (h : lv.findAvailableSpot vehicle = some i) :
    ∃ s, lv.spots[i]? = some s ∧ s.suits vehicle := by
  obtain ⟨j, s, hij, hs, hsuit, _⟩ := ParkingLevel.findFrom_some vehicle lv.spots 0 i h
  have : i = j := by omega
  subst this
  exact ⟨s, hs, hsuit⟩

theorem ParkingLevel.findAvailableSpot_none (lv : ParkingLevel) (vehicle : Vehicle) :
    lv.findAvailableSpot vehicle = none ↔ ∀ s ∈ lv.spots, ¬ s.suits vehicle :=
  ParkingLevel.findFrom_none vehicle lv.spots 0

theorem ParkingSpotAllocator.levels_findFrom_some (vehicle : Vehicle) (lvs : List ParkingLevel)
    (k l i : Nat) (h : ParkingSpotAllocator.findFrom vehicle lvs k = some (l, i)) :
    ∃ j lv, l = k + j ∧ lvs[j]? = some lv ∧ lv.findAvailableSpot vehicle = some i ∧
      ∀ j' lv', j' < j → lvs[j']? = some lv' → lv'.findAvailableSpot vehicle = none := by
  induction lvs generalizing k with
  | nil => simp [ParkingSpotAllocator.findFrom] at h
  | cons x rest ih =>
    unfold ParkingSpotAllocator.findFrom at h
    cases hx : x.findAvailableSpot vehicle with
    | some spot =>
      rw [hx] at h
      simp only [Option.some.injEq, Prod.mk.injEq] at h
      refine ⟨0, x, by omega, by simp, ?_, ?_⟩
      · rw [hx, h.2]
      · intro j' lv' hj'; omega
    | none =>
      rw [hx] at h
      obtain ⟨j, lv, hl, hlv, hfind, hmin⟩ := ih (k + 1) h
      refine ⟨j + 1, lv, by omega, by simpa using hlv, hfind, ?_⟩
      intro j' lv' hj' hlv'
      cases j' with
      | zero => simp at hlv'; subst hlv'; exact hx
      | succ n => simp at hlv'; exact hmin n lv' (by omega) hlv'

theorem ParkingSpotAllocator.levels_findFrom_none (vehicle : Vehicle) (lvs : List ParkingLevel) (k : Nat) :
    ParkingSpotAllocator.findFrom vehicle lvs k = none ↔
      ∀ lv ∈ lvs, lv.findAvailableSpot vehicle = none := by
  induction lvs generalizing k with
  | nil => simp [ParkingSpotAllocator.findFrom]
  | cons x rest ih =>
    unfold ParkingSpotAllocator.findFrom
    cases hx : x.findAvailableSpot vehicle with
    | some spot => simp [hx]
    | none => simp [hx, ih (k + 1)]

theorem ParkingSpotAllocator.findSpot_some (lot : ParkingLot) (vehicle : Vehicle) (l i : Nat)
    (h : ParkingSpotAllocator.findSpot lot vehicle = some (l, i)) :
    ∃ lv, lot.levels[l]? = some lv ∧ lv.findAvailableSpot vehicle = some i ∧
      ∀ l' lv', l' < l → lot.levels[l']? = some lv' → lv'.findAvailableSpot vehicle = none := by
  obtain ⟨j, lv, hl, hlv, hfind, hmin⟩ :=
    ParkingSpotAllocator.levels_findFrom_some vehicle lot.levels 0 l i h
  have : l = j := by omega
  subst this
  exact ⟨lv, hlv, hfind, hmin⟩

theorem ParkingSpotAllocator.findSpot_none (lot : ParkingLot) (vehicle : Vehicle) :
    ParkingSpotAllocator.findSpot lot vehicle = none ↔
      ∀ lv ∈ lot.levels, ∀ s ∈ lv.spots, ¬ s.suits vehicle := by
  unfold ParkingSpotAllocator.findSpot ParkingLot.getLevels
  rw [ParkingSpotAllocator.levels_findFrom_none]
  constructor
  · intro h lv hlv
    exact (ParkingLevel.findAvailableSpot_none lv vehicle).1 (h lv hlv)
  · intro h lv hlv
    exact (ParkingLevel.findAvailableSpot_none lv vehicle).2 (h lv hlv)

theorem ParkingSpotAllocator.findSpot_available (lot : ParkingLot) (vehicle : Vehicle)
    (p : Nat × Nat) (h : ParkingSpotAllocator.findSpot lot vehicle = some p) :
    ∃ s, lot.spotAt p = some s ∧ s.suits vehicle := by
  obtain ⟨l, i⟩ := p
  obtain ⟨lv, hlv, hfind, _⟩ := ParkingSpotAllocator.findSpot_some lot vehicle l i h
  obtain ⟨s, hs, hsuit⟩ := ParkingLevel.findAvailableSpot_some_suits lv vehicle i hfind
  exact ⟨s, by simp [ParkingLot.spotAt, hlv, ParkingLevel.spotAt, hs], hsuit⟩

/-- C2: `ParkingSpotAllocator::findSpot` is first-fit in level-major order.
A returned pointer is the one `findAvailableSpot` returns for its level, and no
earlier level has a fitting available spot; when level `l` is the first level
with a fitting available spot, the result is that level's `findAvailableSpot`
result; the result is `nullptr` exactly when no level has a fitting available
spot, in particular when every spot of the lot is occupied. -/
theorem ParkingSpotAllocator.findSpot_first_fit (lot : ParkingLot) (vehicle : Vehicle) :
    (∀ l i, ParkingSpotAllocator.findSpot lot vehicle = some (l, i) →
      ∃ lv, lot.levels[l]? = some lv ∧ lv.findAvailableSpot vehicle = some i ∧
        ∀ l' lv', l' < l → lot.levels[l']? = some lv' → ∀ s ∈ lv'.spots, ¬ s.suits vehicle) ∧
    (∀ l lv, lot.levels[l]? = some lv → (∃ s ∈ lv.spots, s.suits vehicle) →
      (∀ l' lv', l' < l → lot.levels[l']? = some lv' → ∀ s ∈ lv'.spots, ¬ s.suits vehicle) →
      ∃ i, lv.findAvailableSpot vehicle = some i ∧
        ParkingSpotAllocator.findSpot lot vehicle = some (l, i)) ∧
    (ParkingSpotAllocator.findSpot lot vehicle = none ↔
      ∀ lv ∈ lot.levels, ∀ s ∈ lv.spots, ¬ s.suits vehicle) ∧
    ((∀ lv ∈ lot.levels, ∀ s ∈ lv.spots, s.getAvailability = false) →
      ParkingSpotAllocator.findSpot lot vehicle = none) := by
  refine ⟨?_, ?_, ParkingSpotAllocator.findSpot_none lot vehicle, ?_⟩
  · intro l i h
    obtain ⟨lv, hlv, hfind, hmin⟩ := ParkingSpotAllocator.findSpot_some lot vehicle l i h
    exact ⟨lv, hlv, hfind, fun l' lv' hl' hlv' =>
      (ParkingLevel.findAvailableSpot_none lv' vehicle).1 (hmin l' lv' hl' hlv')⟩
  · intro l lv hlv hex hfirst
    cases hres : ParkingSpotAllocator.findSpot lot vehicle with
    | none =>
      obtain ⟨s, hs, hsuit⟩ := hex
      have := (ParkingSpotAllocator.findSpot_none lot vehicle).1 hres lv
        (List.getElem?_mem hlv) s hs
      exact absurd hsuit this
    | some p =>
      obtain ⟨l0, i0⟩ := p
      obtain ⟨lv0, hlv0, hfind0, hmin0⟩ := ParkingSpotAllocator.findSpot_some lot vehicle l0 i0 hres
      rcases Nat.lt_trichotomy l0 l with hlt | heq | hgt
      · obtain ⟨s, hs, hsuit⟩ := ParkingLevel.findAvailableSpot_some_suits lv0 vehicle i0 hfind0
        exact absurd hsuit (hfirst l0 lv0 hlt hlv0 s (List.getElem?_mem hs))
      · subst heq
        rw [hlv0] at hlv
        cases hlv
        exact ⟨i0, hfind0, rfl⟩
      · obtain ⟨s, hs, hsuit⟩ := hex
        have := (ParkingLevel.findAvailableSpot_none lv vehicle).1 (hmin0 l lv hgt hlv) s hs
        exact absurd hsuit this
  · intro hocc
    rw [ParkingSpotAllocator.findSpot_none]
    intro lv hlv s hs hsuit
    have := hocc lv hlv s hs
    rw [hsuit.2] at this
    cases this

/-! ### Occupancy -/

/-- C3: no double-booking. After any sequence of park and free calls on a lot,
a spot to which `parkVehicle` has been applied and no `freeSpot` since is
returned by no `findSpot` and no `findAvailableSpot` call, whatever the
vehicle; every spot a lookup returns is available at that time; and on a lot
whose spots started in producible states the looked-up spot has no occupant, so
parking in it replaces nobody. -/
theorem ParkingLot.no_double_booking (lot lot' : ParkingLot) (ops : List LotOp)
    (hrun : lot.run ops = some lot') :
    (∀ pre post l i v, ops = pre ++ LotOp.parkVehicle l i v :: post →
      (∀ op ∈ post, op.frees (l, i) = false) →
      ∀ veh, ParkingSpotAllocator.findSpot lot' veh ≠ some (l, i) ∧
        ∀ lv, lot'.levels[l]? = some lv → lv.findAvailableSpot veh ≠ some i) ∧
    (∀ veh p, ParkingSpotAllocator.findSpot lot' veh = some p →
      ∃ s, lot'.spotAt p = some s ∧ s.getAvailability = true) ∧
    (∀ veh l lv i, lot'.levels[l]? = some lv → lv.findAvailableSpot veh = some i →
      ∃ s, lot'.spotAt (l, i) = some s ∧ s.getAvailability = true) ∧
    (lot.SpotsReachable →
      (∀ veh p, ParkingSpotAllocator.findSpot lot' veh = some p →
        ∃ s, lot'.spotAt p = some s ∧ s.currentVehicle = none) ∧
      (∀ veh l lv i, lot'.levels[l]? = some lv → lv.findAvailableSpot veh = some i →
        ∃ s, lot'.spotAt (l, i) = some s ∧ s.currentVehicle = none)) := by
  have hlevel : ∀ veh l lv i, lot'.levels[l]? = some lv → lv.findAvailableSpot veh = some i →
      ∃ s, lot'.spotAt (l, i) = some s ∧ s.suits veh := by
    intro veh l lv i hlv hfind
    obtain ⟨s, hs, hsuit⟩ := ParkingLevel.findAvailableSpot_some_suits lv veh i hfind
    exact ⟨s, by simp [ParkingLot.spotAt, hlv, ParkingLevel.spotAt, hs], hsuit⟩
  refine ⟨?_, ?_, ?_, ?_⟩
  · intro pre post l i v hops hpost veh
    subst hops
    rw [ParkingLot.run_append] at hrun
    cases hpre : lot.run pre with
    | none => rw [hpre] at hrun; cases hrun
    | some mid =>
      rw [hpre] at hrun
      simp only [ParkingLot.run] at hrun
      cases hstep : mid.step (LotOp.parkVehicle l i v) with
      | none => rw [hstep] at hrun; cases hrun
      | some parked =>
        rw [hstep] at hrun
        obtain ⟨⟨old, hold⟩, hget⟩ := ParkingLot.step_spotAt mid parked _ hstep
        have hparked : parked.spotAt (l, i) = some (old.parkVehicle v) := by
          have := hget (l, i)
          simp only [LotOp.target, if_true] at this hold
          rw [this, hold]; rfl
        obtain ⟨s', hs', hav'⟩ := ParkingLot.run_unavailable parked lot' post (l, i)
          (old.parkVehicle v) hrun hpost hparked rfl
        constructor
        · intro hfind
          obtain ⟨s, hs, hsuit⟩ := ParkingSpotAllocator.findSpot_available lot' veh (l, i) hfind
          rw [hs'] at hs
          cases hs
          have := hsuit.2
          simp [ParkingSpot.getAvailability, hav'] at this
        · intro lv hlv hfind
          obtain ⟨s, hs, hsuit⟩ := hlevel veh l lv i hlv hfind
          rw [hs'] at hs
          cases hs
          have := hsuit.2
          simp [ParkingSpot.getAvailability, hav'] at this
  · intro veh p hfind
    obtain ⟨s, hs, hsuit⟩ := ParkingSpotAllocator.findSpot_available lot' veh p hfind
    exact ⟨s, hs, hsuit.2⟩
  · intro veh l lv i hlv hfind
    obtain ⟨s, hs, hsuit⟩ := hlevel veh l lv i hlv hfind
    exact ⟨s, hs, hsuit.2⟩
  · intro hreach
    have hreach' := ParkingLot.run_spotsReachable lot lot' ops hrun hreach
    constructor
    · intro veh p hfind
      obtain ⟨s, hs, hsuit⟩ := ParkingSpotAllocator.findSpot_available lot' veh p hfind
      exact ⟨s, hs, (hreach' p s hs).no_occupant hsuit.2⟩
    · intro veh l lv i hlv hfind
      obtain ⟨s, hs, hsuit⟩ := hlevel veh l lv i hlv hfind
      exact ⟨s, hs, (hreach' (l, i) s hs).no_occupant hsuit.2⟩

theorem ParkingLot.no_double_booking_witness :
    (ParkingLot.mk [ParkingLevel.ctor 0 2]).run
        [LotOp.parkVehicle 0 0 (some ⟨"KA-01", VehicleSize.Small⟩), LotOp.levelFreeSpot 0 2] =
      some (ParkingLot.mk [ParkingLevel.mk 0 [(ParkingSpot.ctor 1 VehicleSize.Compact).parkVehicle
        (some ⟨"KA-01", VehicleSize.Small⟩), ParkingSpot.ctor 2 VehicleSize.Compact]]) ∧
    ParkingSpotAllocator.findSpot
        (ParkingLot.mk [ParkingLevel.mk 0 [(ParkingSpot.ctor 1 VehicleSize.Compact).parkVehicle
          (some ⟨"KA-01", VehicleSize.Small⟩), ParkingSpot.ctor 2 VehicleSize.Compact]])
        ⟨"KA-02", VehicleSize.Small⟩ ≠ some (0, 0) :=
  ⟨by decide,
    ((ParkingLot.no_double_booking (ParkingLot.mk [ParkingLevel.ctor 0 2]) _
      [LotOp.parkVehicle 0 0 (some ⟨"KA-01", VehicleSize.Small⟩), LotOp.levelFreeSpot 0 2]
      (by decide)).1 [] [LotOp.levelFreeSpot 0 2] 0 0 (some ⟨"KA-01", VehicleSize.Small⟩) rfl
      (by decide) ⟨"KA-02", VehicleSize.Small⟩).1⟩

/-! ### Rounding to `double` -/

theorem double.roundHalfEven_intCast (n : Int) : double.roundHalfEven (n : ℚ) = n := by
  unfold double.roundHalfEven
  simp

theorem double.roundHalfEven_error (y : ℚ) :
    |((double.roundHalfEven y : Int) : ℚ) - y| ≤ 1 / 2 := by
  have h1 : ((⌊y⌋ : Int) : ℚ) ≤ y := Int.floor_le y
  have h2 : y < ((⌊y⌋ : Int) : ℚ) + 1 := Int.lt_floor_add_one y
  unfold double.roundHalfEven
  split_ifs with ha hb hc
  · rw [abs_le]; constructor <;> linarith
  · rw [abs_le]; push_cast; constructor <;> linarith
  · rw [abs_le]; constructor <;> linarith
  · rw [abs_le]; push_cast; constructor <;> linarith

theorem double.log_eq_of_bounds (x : ℚ) (L : Int) (h1 : (2 : ℚ) ^ L ≤ |x|)
    (h2 : |x| < (2 : ℚ) ^ (L + 1)) : Int.log 2 |x| = L := by
  have hpos : 0 < |x| := lt_of_lt_of_le (by positivity) h1
  have a : L ≤ Int.log 2 |x| := (Int.zpow_le_iff_le_log (by norm_num) hpos).1 (by exact_mod_cast h1)
  have b : Int.log 2 |x| < L + 1 :=
    (Int.lt_zpow_iff_log_lt (by norm_num) hpos).1 (by exact_mod_cast h2)
  omega

theorem double.exponent_eq_of_bounds (x : ℚ) (L : Int) (h1 : (2 : ℚ) ^ L ≤ |x|)
    (h2 : |x| < (2 : ℚ) ^ (L + 1)) (hL : -1022 ≤ L) : double.exponent x = L - 52 := by
  unfold double.exponent
  rw [double.log_eq_of_bounds x L h1 h2]
  omega

theorem double.roundFinite_error (x : ℚ) (hx : (2 : ℚ) ^ (-1022 : Int) ≤ |x|) :
    |double.roundFinite x - x| ≤ |x| * (2 : ℚ) ^ (-53 : Int) := by
  have hpos : 0 < |x| := lt_of_lt_of_le (by positivity) hx
  have hL : (-1022 : Int) ≤ Int.log 2 |x| :=
    (Int.zpow_le_iff_le_log (by norm_num) hpos).1 (by exact_mod_cast hx)
  have hle : (2 : ℚ) ^ (Int.log 2 |x|) ≤ |x| := by
    have := Int.zpow_log_le_self (b := 2) (r := |x|) (by norm_num) hpos
    exact_mod_cast this
  have hE : double.exponent x = Int.log 2 |x| - 52 := by
    unfold double.exponent; omega
  have hEpos : (0 : ℚ) < (2 : ℚ) ^ double.exponent x := by positivity
  have herr := double.roundHalfEven_error (x / (2 : ℚ) ^ double.exponent x)
  have hkey : double.roundFinite x - x =
      (((double.roundHalfEven (x / (2 : ℚ) ^ double.exponent x) : Int) : ℚ) -
        x / (2 : ℚ) ^ double.exponent x) * (2 : ℚ) ^ double.exponent x := by
    unfold double.roundFinite
    field_simp
  rw [hkey, abs_mul, abs_of_pos hEpos]
  have hpow : (2 : ℚ) ^ double.exponent x = (2 : ℚ) ^ (Int.log 2 |x|) * (2 : ℚ) ^ (-52 : Int) := by
    rw [hE, sub_eq_add_neg, zpow_add₀ (by norm_num)]
  calc |((double.roundHalfEven (x / (2 : ℚ) ^ double.exponent x) : Int) : ℚ) -
          x / (2 : ℚ) ^ double.exponent x| * (2 : ℚ) ^ double.exponent x
      ≤ 1 / 2 * (2 : ℚ) ^ double.exponent x := by
        exact mul_le_mul_of_nonneg_right herr hEpos.le
    _ = (2 : ℚ) ^ (Int.log 2 |x|) * (2 : ℚ) ^ (-53 : Int) := by
        rw [hpow]
        have : (2 : ℚ) ^ (-52 : Int) = 2 * (2 : ℚ) ^ (-53 : Int) := by
          rw [show (-52 : Int) = 1 + (-53) by norm_num, zpow_add₀ (by norm_num)]
          simp
        rw [this]; ring
    _ ≤ |x| * (2 : ℚ) ^ (-53 : Int) := by
        exact mul_le_mul_of_nonneg_right hle (by positivity)

theorem double.roundFinite_representable (q : ℚ) (h : double.Representable q) :
    double.roundFinite q = q := by
  obtain ⟨m, e, hm, he, rfl⟩ := h
  by_cases hm0 : m = 0
  · subst hm0
    simp [double.roundFinite, double.roundHalfEven]
  have hapos : 0 < |((m : ℚ) * (2 : ℚ) ^ e)| := by
    apply abs_pos.mpr
    have : ((m : ℚ)) ≠ 0 := by exact_mod_cast hm0
    positivity
  have hlt : |((m : ℚ) * (2 : ℚ) ^ e)| < (2 : ℚ) ^ (53 + e) := by
    rw [abs_mul, abs_of_pos (show (0 : ℚ) < (2 : ℚ) ^ e by positivity), zpow_add₀ (by norm_num)]
    apply mul_lt_mul_of_pos_right _ (by positivity)
    have h53 : |(m : ℚ)| < ((2 ^ 53 : Int) : ℚ) := by
      rw [← Int.cast_abs]; exact_mod_cast hm
    norm_num at h53 ⊢
    exact h53
  have hlog : Int.log 2 |((m : ℚ) * (2 : ℚ) ^ e)| < 53 + e :=
    (Int.lt_zpow_iff_log_lt (by norm_num) hapos).1 (by exact_mod_cast hlt)
  have hE : double.exponent ((m : ℚ) * (2 : ℚ) ^ e) ≤ e := by
    unfold double.exponent; omega
  have key : ∀ E : Int, E ≤ e →
      ((double.roundHalfEven ((m : ℚ) * (2 : ℚ) ^ e / (2 : ℚ) ^ E) : Int) : ℚ) * (2 : ℚ) ^ E =
        (m : ℚ) * (2 : ℚ) ^ e := by
    intro E hEe
    obtain ⟨t, ht⟩ : ∃ t : Nat, e = E + t := ⟨(e - E).toNat, by omega⟩
    have h2 : (2 : ℚ) ^ e = (2 : ℚ) ^ E * (2 : ℚ) ^ t := by
      rw [ht, zpow_add₀ (by norm_num), zpow_natCast]
    have hEpos : (0 : ℚ) < (2 : ℚ) ^ E := by positivity
    have hquot : (m : ℚ) * (2 : ℚ) ^ e / (2 : ℚ) ^ E = ((m * 2 ^ t : Int) : ℚ) := by
      rw [h2]; push_cast; field_simp; ring
    rw [hquot, double.roundHalfEven_intCast, h2]
    push_cast
    ring
  exact key _ hE

theorem double.round_representable (q : ℚ) (h : double.Representable q)
    (hq : |q| < (2 : ℚ) ^ (1024 : Int)) : double.round q = double.finite q := by
  unfold double.round
  rw [double.roundFinite_representable q h, if_pos hq]

theorem double.representable_intCast (n : Int) (h : |n| < 2 ^ 53) :
    double.Representable (n : ℚ) :=
  ⟨n, 0, h, by norm_num, by simp⟩

theorem double.round_intCast (n : Int) (h : |n| < 2 ^ 53) :
    double.round (n : ℚ) = double.finite (n : ℚ) := by
  apply double.round_representable _ (double.representable_intCast n h)
  have h1 : |(n : ℚ)| < ((2 ^ 53 : Int) : ℚ) := by
    rw [← Int.cast_abs]; exact_mod_cast h
  have h2 : (((2 ^ 53 : Int) : ℚ)) ≤ (2 : ℚ) ^ (1024 : Int) := by norm_num
  linarith

/-! ### Fees -/

theorem std.ceil_hours_bounds (d : Int) :
    3600 * (⌈(d : ℚ) / 3600⌉ - 1) < d ∧ d ≤ 3600 * ⌈(d : ℚ) / 3600⌉ := by
  constructor
  · have h : ((⌈(d : ℚ) / 3600⌉ - 1 : Int) : ℚ) < (d : ℚ) / 3600 := by
      rw [← Int.lt_ceil]; omega
    rw [lt_div_iff₀ (by norm_num)] at h
    have h' : ((((⌈(d : ℚ) / 3600⌉ - 1) * 3600 : Int)) : ℚ) < ((d : Int) : ℚ) := by
      push_cast; push_cast at h; exact h
    have := Int.cast_lt.mp h'
    linarith
  · have h : (d : ℚ) / 3600 ≤ ((⌈(d : ℚ) / 3600⌉ : Int) : ℚ) := Int.le_ceil _
    rw [div_le_iff₀ (by norm_num)] at h
    have h' : ((d : Int) : ℚ) ≤ (((⌈(d : ℚ) / 3600⌉ * 3600 : Int)) : ℚ) := by
      push_cast; exact h
    have := Int.cast_le.mp h'
    linarith

theorem std.ceil_round_div_3600 (d : Int) (hd : |d| < 2 ^ 53) :
    std.ceil ((double.ofInt d).divBy 3600) = double.finite ((⌈(d : ℚ) / 3600⌉ : Int) : ℚ) := by
  obtain ⟨hlo, hhi⟩ := std.ceil_hours_bounds d
  have hof : double.ofInt d = double.finite (d : ℚ) := double.round_intCast d hd
  rw [hof]
  simp only [double.divBy]
  by_cases hdiv : d = 3600 * ⌈(d : ℚ) / 3600⌉
  · have hx : (d : ℚ) / 3600 = ((⌈(d : ℚ) / 3600⌉ : Int) : ℚ) := by
      rw [div_eq_iff (by norm_num)]
      have : ((d : Int) : ℚ) = ((3600 * ⌈(d : ℚ) / 3600⌉ : Int) : ℚ) := by rw [← hdiv]
      push_cast at this
      linarith
    have hk : |⌈(d : ℚ) / 3600⌉| < 2 ^ 53 := by
      have h1 := abs_lt.mp hd
      rw [abs_lt]; constructor <;> omega
    rw [hx, double.round_intCast _ hk]
    simp [std.ceil]
  · have hd0 : d ≠ 0 := by
      intro h0; apply hdiv; subst h0; simp
    have hd1 : (1 : ℚ) ≤ |(d : ℚ)| := by
      rw [← Int.cast_abs]
      have : (1 : Int) ≤ |d| := Int.one_le_abs hd0
      exact_mod_cast this
    have hd53 : |(d : ℚ)| < 9007199254740992 := by
      rw [← Int.cast_abs]
      have : |d| < (9007199254740992 : Int) := by simpa using hd
      exact_mod_cast this
    have habs : |(d : ℚ) / 3600| = |(d : ℚ)| / 3600 := by
      rw [abs_div]; norm_num
    have hsmall : (2 : ℚ) ^ (-1022 : Int) ≤ |(d : ℚ) / 3600| := by
      have h1 : (2 : ℚ) ^ (-1022 : Int) ≤ (2 : ℚ) ^ (-12 : Int) :=
        zpow_le_zpow_right₀ (by norm_num) (by norm_num)
      have h2 : (2 : ℚ) ^ (-12 : Int) = 1 / 4096 := by norm_num
      have h12 : (2 : ℚ) ^ (-1022 : Int) ≤ 1 / 4096 := h2 ▸ h1
      have h3 : (1 : ℚ) / 4096 ≤ |(d : ℚ)| / 3600 := by
        rw [le_div_iff₀ (by norm_num)]; linarith
      rw [habs]
      linarith
    have herr := double.roundFinite_error ((d : ℚ) / 3600) hsmall
    have herr' : |double.roundFinite ((d : ℚ) / 3600) - (d : ℚ) / 3600| < 1 / 3600 := by
      have h53 : (2 : ℚ) ^ (-53 : Int) = 1 / 9007199254740992 := by norm_num
      rw [habs, h53] at herr
      have : |(d : ℚ)| / 3600 * (1 / 9007199254740992) < 1 / 3600 := by
        rw [div_mul_eq_mul_div, div_lt_div_iff₀ (by norm_num) (by norm_num)]
        linarith
      linarith
    obtain ⟨he1, he2⟩ := abs_lt.mp herr'
    have hlt : d < 3600 * ⌈(d : ℚ) / 3600⌉ := lt_of_le_of_ne hhi hdiv
    have hx1 : (d : ℚ) / 3600 ≤ ((⌈(d : ℚ) / 3600⌉ : Int) : ℚ) - 1 / 3600 := by
      rw [div_le_iff₀ (by norm_num)]
      have : ((d + 1 : Int) : ℚ) ≤ ((3600 * ⌈(d : ℚ) / 3600⌉ : Int) : ℚ) := by
        exact_mod_cast (show d + 1 ≤ 3600 * ⌈(d : ℚ) / 3600⌉ by omega)
      push_cast at this
      linarith
    have hx2 : ((⌈(d : ℚ) / 3600⌉ : Int) : ℚ) - 1 + 1 / 3600 ≤ (d : ℚ) / 3600 := by
      rw [le_div_iff₀ (by norm_num)]
      have : ((3600 * (⌈(d : ℚ) / 3600⌉ - 1) + 1 : Int) : ℚ) ≤ ((d : Int) : ℚ) := by
        exact_mod_cast (show 3600 * (⌈(d : ℚ) / 3600⌉ - 1) + 1 ≤ d by omega)
      push_cast at this
      linarith
    have hfin : |double.roundFinite ((d : ℚ) / 3600)| < (2 : ℚ) ^ (1024 : Int) := by
      have h1 : |double.roundFinite ((d : ℚ) / 3600)| ≤
          |double.roundFinite ((d : ℚ) / 3600) - (d : ℚ) / 3600| + |(d : ℚ) / 3600| := by
        have := abs_add (double.roundFinite ((d : ℚ) / 3600) - (d : ℚ) / 3600) ((d : ℚ) / 3600)
        simpa using this
      have h2 : |(d : ℚ) / 3600| < 9007199254740992 := by
        rw [habs, div_lt_iff₀ (by norm_num)]; linarith
      have h3 : (9007199254740993 : ℚ) ≤ (2 : ℚ) ^ (1024 : Int) := by norm_num
      linarith
    unfold double.round
    rw [if_pos hfin]
    simp only [std.ceil]
    congr 2
    rw [Int.ceil_eq_iff]
    constructor <;> linarith

theorem HourlyRateStrategy.calculateFee_eq_mul (s : HourlyRateStrategy) (entryTime exitTime : Int)
    (size : VehicleSize) (hd : |exitTime - entryTime| < 2 ^ 53) :
    s.calculateFee entryTime exitTime size =
      s.hourlyRate.mul (double.finite ((⌈((exitTime - entryTime : Int) : ℚ) / 3600⌉ : Int) : ℚ)) := by
  simp only [HourlyRateStrategy.calculateFee, std.difftime]
  rw [std.ceil_round_div_3600 _ hd]

theorem double.mul_finite_representable (a b : ℚ) (h : double.Representable (a * b))
    (hlt : |a * b| < (2 : ℚ) ^ (1024 : Int)) :
    (double.finite a).mul (double.finite b) = double.finite (a * b) := by
  simp only [double.mul]
  exact double.round_representable _ h hlt

theorem double.mul_finite_intCast (a b : Int) (h : |a * b| < 2 ^ 53) :
    (double.finite (a : ℚ)).mul (double.finite (b : ℚ)) = double.finite ((a * b : Int) : ℚ) := by
  simp only [double.mul]
  rw [← Int.cast_mul]
  exact double.round_intCast _ h

theorem double.roundHalfEven_tie_even (n : Int) (hn : n % 2 = 0) :
    double.roundHalfEven ((n : ℚ) + 1 / 2) = n := by
  have hfloor : ⌊(n : ℚ) + 1 / 2⌋ = n := by
    rw [Int.floor_eq_iff]; constructor <;> norm_num
  unfold double.roundHalfEven
  rw [hfloor]
  norm_num [hn]

theorem double.roundHalfEven_tie_odd (n : Int) (hn : n % 2 = 1) :
    double.roundHalfEven ((n : ℚ) + 1 / 2) = n + 1 := by
  have hfloor : ⌊(n : ℚ) + 1 / 2⌋ = n := by
    rw [Int.floor_eq_iff]; constructor <;> norm_num
  unfold double.roundHalfEven
  rw [hfloor]
  norm_num [hn]

/-- C4 (as the code behaves): for `entryTime <= exitTime` less than `2 ^ 53`
seconds apart the number of billed hours is exactly the ceiling of the stay in
hours, the one integer `hours >= 0` with
`3600 * (hours - 1) < exitTime - entryTime <= 3600 * hours`, and the fee is the
`double` product of the rate and that number: it is the exact product whenever
the exact product is a `double`; the vehicle size has no influence. -/
theorem HourlyRateStrategy.calculateFee_ceil (s : HourlyRateStrategy) (entryTime exitTime : Int)
    (size : VehicleSize) (h : entryTime ≤ exitTime) (hd : exitTime - entryTime < 2 ^ 53) :
    ∃ hours : Int, hours = ⌈((exitTime - entryTime : Int) : ℚ) / 3600⌉ ∧ 0 ≤ hours ∧
      3600 * (hours - 1) < exitTime - entryTime ∧ exitTime - entryTime ≤ 3600 * hours ∧
      s.calculateFee entryTime exitTime size = s.hourlyRate.mul (double.finite (hours : ℚ)) ∧
      (∀ rate : ℚ, s.hourlyRate = double.finite rate →
        double.Representable (rate * (hours : ℚ)) →
        |rate * (hours : ℚ)| < (2 : ℚ) ^ (1024 : Int) →
        s.calculateFee entryTime exitTime size = double.finite (rate * (hours : ℚ))) ∧
      ∀ size', s.calculateFee entryTime exitTime size' = s.calculateFee entryTime exitTime size := by
  obtain ⟨hlo, hhi⟩ := std.ceil_hours_bounds (exitTime - entryTime)
  have habs : |exitTime - entryTime| < 2 ^ 53 := by
    rw [abs_lt]; constructor <;> omega
  have hfee := HourlyRateStrategy.calculateFee_eq_mul s entryTime exitTime size habs
  refine ⟨_, rfl, by omega, hlo, hhi, hfee, ?_, fun _ => rfl⟩
  intro rate hrate hrep hlt
  rw [hfee, hrate]
  exact double.mul_finite_representable _ _ hrep hlt

theorem HourlyRateStrategy.calculateFee_ceil_witness :
    (0 : Int) ≤ 3601 ∧
    HourlyRateStrategy.calculateFee ⟨double.finite 10⟩ 0 3601 VehicleSize.Small =
      double.finite 20 ∧
    HourlyRateStrategy.calculateFee ⟨double.finite 10⟩ 0 3601 VehicleSize.Compact =
      double.finite 20 := by
  obtain ⟨hours, _, _, hlo, hhi, hfee, _, hsize⟩ :=
    HourlyRateStrategy.calculateFee_ceil ⟨double.finite 10⟩ 0 3601 VehicleSize.Small
      (by decide) (by decide)
  have h2 : hours = 2 := by omega
  subst h2
  have hmul : (double.finite 10).mul (double.finite ((2 : Int) : ℚ)) = double.finite 20 := by
    have := double.mul_finite_intCast 10 2 (by decide)
    norm_num at this ⊢
    exact this
  refine ⟨by decide, ?_, ?_⟩
  · rw [hfee]; exact hmul
  · rw [hsize VehicleSize.Compact, hfee]; exact hmul

/-- C4, refuted as stated: with rate 1, entry at 0 s and exit at
15832967439974401 s the stay is one second over 4398046511104 hours, so its
ceiling is 4398046511105 hours, but the conversion of the stay to `double`
rounds it to 15832967439974400 s and the fee is 4398046511104. And with the
rate 3602879701896397 / 2 ^ 55, the `double` nearest to 0.1, a stay of three
hours costs 5404319552844596 / 2 ^ 54, which is the product of the rate and 3
rounded to `double` and not the product itself. -/
theorem HourlyRateStrategy.calculateFee_ceil_counterexample :
    (0 : Int) ≤ 15832967439974401 ∧
    ⌈(((15832967439974401 : Int) - 0 : Int) : ℚ) / 3600⌉ = 4398046511105 ∧
    HourlyRateStrategy.calculateFee ⟨double.finite 1⟩ 0 15832967439974401 VehicleSize.Small =
      double.finite 4398046511104 ∧
    HourlyRateStrategy.calculateFee ⟨double.finite 1⟩ 0 15832967439974401 VehicleSize.Small ≠
      double.finite (1 * 4398046511105) ∧
    double.Representable (3602879701896397 / 36028797018963968) ∧
    ⌈(((10800 : Int) - 0 : Int) : ℚ) / 3600⌉ = 3 ∧
    HourlyRateStrategy.calculateFee ⟨double.finite (3602879701896397 / 36028797018963968)⟩
      0 10800 VehicleSize.Small = double.finite (5404319552844596 / 18014398509481984) ∧
    HourlyRateStrategy.calculateFee ⟨double.finite (3602879701896397 / 36028797018963968)⟩
      0 10800 VehicleSize.Small ≠ double.finite (3602879701896397 / 36028797018963968 * 3) := by
  have hexp : double.exponent (15832967439974401 : ℚ) = 1 := by
    have := double.exponent_eq_of_bounds (15832967439974401 : ℚ) 53
      (by norm_num [abs_of_pos]) (by norm_num [abs_of_pos]) (by norm_num)
    simpa using this
  have hround : double.roundFinite (15832967439974401 : ℚ) = 15832967439974400 := by
    unfold double.roundFinite
    rw [hexp]
    have hy : (15832967439974401 : ℚ) / (2 : ℚ) ^ (1 : Int) =
        ((7916483719987200 : Int) : ℚ) + 1 / 2 := by norm_num
    rw [hy, double.roundHalfEven_tie_even _ (by decide)]
    norm_num
  have hof : double.ofInt (15832967439974401 - 0) = double.finite 15832967439974400 := by
    have hcast : (((15832967439974401 - 0 : Int)) : ℚ) = (15832967439974401 : ℚ) := by norm_num
    unfold double.ofInt double.round
    rw [hcast, hround, if_pos (by norm_num [abs_of_pos])]
  have hdiv : (double.finite 15832967439974400).divBy 3600 = double.finite 4398046511104 := by
    simp only [double.divBy]
    have hq : (15832967439974400 : ℚ) / 3600 = ((4398046511104 : Int) : ℚ) := by norm_num
    rw [hq, double.round_intCast _ (by decide)]
    norm_num
  have hceil : std.ceil (double.finite 4398046511104) = double.finite 4398046511104 := by
    simp only [std.ceil]
    have : ⌈(4398046511104 : ℚ)⌉ = 4398046511104 := by
      rw [Int.ceil_eq_iff]; constructor <;> norm_num
    rw [this]; norm_num
  have hmul : (double.finite 1).mul (double.finite 4398046511104) =
      double.finite 4398046511104 := by
    have := double.mul_finite_intCast 1 4398046511104 (by decide)
    norm_num at this ⊢
    exact this
  have hfee : HourlyRateStrategy.calculateFee ⟨double.finite 1⟩ 0 15832967439974401
      VehicleSize.Small = double.finite 4398046511104 := by
    simp only [HourlyRateStrategy.calculateFee, std.difftime]
    rw [hof, hdiv, hceil, hmul]
  have hrep : double.Representable (3602879701896397 / 36028797018963968) :=
    ⟨3602879701896397, -55, by decide, by decide, by norm_num⟩
  have hthree : ⌈(((10800 : Int) - 0 : Int) : ℚ) / 3600⌉ = 3 := by
    rw [Int.ceil_eq_iff]; constructor <;> norm_num
  have hexp3 : double.exponent (3602879701896397 / 36028797018963968 * 3 : ℚ) = -54 := by
    have := double.exponent_eq_of_bounds (3602879701896397 / 36028797018963968 * 3 : ℚ) (-2)
      (by norm_num [abs_of_pos]) (by norm_num [abs_of_pos]) (by norm_num)
    simpa using this
  have hround3 : double.roundFinite (3602879701896397 / 36028797018963968 * 3 : ℚ) =
      5404319552844596 / 18014398509481984 := by
    unfold double.roundFinite
    rw [hexp3]
    have hy : (3602879701896397 / 36028797018963968 * 3 : ℚ) / (2 : ℚ) ^ (-54 : Int) =
        ((5404319552844595 : Int) : ℚ) + 1 / 2 := by norm_num
    rw [hy, double.roundHalfEven_tie_odd _ (by decide)]
    norm_num
  have hfee3 : HourlyRateStrategy.calculateFee
      ⟨double.finite (3602879701896397 / 36028797018963968)⟩ 0 10800 VehicleSize.Small =
      double.finite (5404319552844596 / 18014398509481984) := by
    rw [HourlyRateStrategy.calculateFee_eq_mul _ _ _ _ (by decide), hthree]
    simp only [double.mul, double.round]
    have hcast : (3602879701896397 / 36028797018963968 : ℚ) * ((3 : Int) : ℚ) =
        3602879701896397 / 36028797018963968 * 3 := by norm_num
    rw [hcast, hround3, if_pos (by norm_num [abs_of_pos])]
  refine ⟨by decide, ?_, hfee, ?_, hrep, hthree, hfee3, ?_⟩
  · rw [Int.ceil_eq_iff]; constructor <;> norm_num
  · rw [hfee]
    intro hc
    have := double.finite.inj hc
    norm_num at this
  · rw [hfee3]
    intro hc
    have := double.finite.inj hc
    norm_num at this

/-- C5 (as the code behaves): `HourlyRateStrategy::calculateFee` has no
`InvalidInterval` result. For `exitTime < entryTime`, less than `2 ^ 53`
seconds apart, it returns an amount all the same: the `double` product of the
rate and the ceiling of the negative stay in hours, a number of hours that is
zero or negative; it is the exact product whenever the exact product is a
`double`. -/
theorem HourlyRateStrategy.calculateFee_reversed_interval (s : HourlyRateStrategy)
    (entryTime exitTime : Int) (size : VehicleSize) (h : exitTime < entryTime)
    (hd : entryTime - exitTime < 2 ^ 53) :
    ∃ hours : Int, hours = ⌈((exitTime - entryTime : Int) : ℚ) / 3600⌉ ∧ hours ≤ 0 ∧
      3600 * (hours - 1) < exitTime - entryTime ∧ exitTime - entryTime ≤ 3600 * hours ∧
      s.calculateFee entryTime exitTime size = s.hourlyRate.mul (double.finite (hours : ℚ)) ∧
      (∀ rate : ℚ, s.hourlyRate = double.finite rate →
        double.Representable (rate * (hours : ℚ)) →
        |rate * (hours : ℚ)| < (2 : ℚ) ^ (1024 : Int) →
        s.calculateFee entryTime exitTime size = double.finite (rate * (hours : ℚ))) := by
  obtain ⟨hlo, hhi⟩ := std.ceil_hours_bounds (exitTime - entryTime)
  have habs : |exitTime - entryTime| < 2 ^ 53 := by
    rw [abs_lt]; constructor <;> omega
  have hfee := HourlyRateStrategy.calculateFee_eq_mul s entryTime exitTime size habs
  refine ⟨_, rfl, by omega, hlo, hhi, hfee, ?_⟩
  intro rate hrate hrep hlt
  rw [hfee, hrate]
  exact double.mul_finite_representable _ _ hrep hlt

theorem HourlyRateStrategy.calculateFee_reversed_interval_witness :
    (0 : Int) < 7200 ∧
    HourlyRateStrategy.calculateFee ⟨double.finite 5⟩ 7200 0 VehicleSize.Compact =
      double.finite (-10) := by
  obtain ⟨hours, _, _, hlo, hhi, hfee, _⟩ :=
    HourlyRateStrategy.calculateFee_reversed_interval ⟨double.finite 5⟩ 7200 0
      VehicleSize.Compact (by decide) (by decide)
  have h2 : hours = -2 := by omega
  subst h2
  refine ⟨by decide, ?_⟩
  rw [hfee]
  have := double.mul_finite_intCast 5 (-2) (by decide)
  norm_num at this ⊢
  exact this

/-- C5, refuted as stated: with rate 10, entry at 3600 s and exit at 0 s, so
that the exit precedes the entry, the call yields the amount -10 and no
error. -/
theorem HourlyRateStrategy.calculateFee_invalid_interval_counterexample :
    (0 : Int) < 3600 ∧
    HourlyRateStrategy.calculateFee ⟨double.finite 10⟩ 3600 0 VehicleSize.Small =
      double.finite (-10) := by
  obtain ⟨hlo, hhi⟩ := std.ceil_hours_bounds (0 - 3600)
  have h1 : ⌈((0 - 3600 : Int) : ℚ) / 3600⌉ = -1 := by omega
  refine ⟨by decide, ?_⟩
  rw [HourlyRateStrategy.calculateFee_eq_mul _ _ _ _ (by decide), h1]
  have := double.mul_finite_intCast 10 (-1) (by decide)
  norm_num at this ⊢
  exact this

/-- C6: `FlatRateStrategy::calculateFee` returns the configured rate for every
entry time, exit time (before or after the entry) and vehicle size, called
directly or through the `FeeStrategy` base class. -/
theorem FlatRateStrategy.calculateFee_eq_rate (s : FlatRateStrategy) (entryTime exitTime : Int)
    (size : VehicleSize) :
    s.calculateFee entryTime exitTime size = s.flatRate ∧
    s.toFeeStrategy.calculateFee entryTime exitTime size = s.flatRate :=
  ⟨rfl, rfl⟩

theorem ParkingFeeCalculator.foldl_setStrategy (later : List FeeStrategy)
    (c : ParkingFeeCalculator) :
    (later.foldl ParkingFeeCalculator.setStrategy c).feeStrategy =
      later.getLast?.getD c.feeStrategy := by
  induction later generalizing c with
  | nil => rfl
  | cons x xs ih =>
    simp only [List.foldl_cons]
    rw [ih (c.setStrategy x)]
    cases xs with
    | nil => rfl
    | cons y ys =>
      rw [List.getLast?_eq_getLast _ (List.cons_ne_nil y ys), List.getLast?_cons_cons,
        List.getLast?_eq_getLast _ (List.cons_ne_nil y ys)]
      rfl

/-- C7: `ParkingFeeCalculator::calculateFee` returns what the configured
strategy computes for `(ticket.entryTime, exitTime, ticket.vehicleSize)`; the
configured strategy is the one installed last, by the constructor or by the
latest `setStrategy`, so after `setStrategy(s)` the fee is the one `s`
computes; the call leaves the calculator and the ticket as they were. -/
theorem ParkingFeeCalculator.calculateFee_delegates (c : ParkingFeeCalculator)
    (ticket : ParkingTicket) (exitTime : Int) :
    c.calculateFee ticket exitTime =
      c.feeStrategy.calculateFee ticket.entryTime exitTime ticket.vehicleSize ∧
    (∀ initial : FeeStrategy, (ParkingFeeCalculator.ctor initial).calculateFee ticket exitTime =
      initial.calculateFee ticket.entryTime exitTime ticket.vehicleSize) ∧
    (∀ s : FeeStrategy, (c.setStrategy s).calculateFee ticket exitTime =
      s.calculateFee ticket.entryTime exitTime ticket.vehicleSize) ∧
    (∀ (initial : FeeStrategy) (later : List FeeStrategy),
      (ParkingFeeCalculator.configure initial later).calculateFee ticket exitTime =
        (later.getLast?.getD initial).calculateFee ticket.entryTime exitTime ticket.vehicleSize) ∧
    c.calculateFeeCall ticket exitTime = (c, ticket, c.calculateFee ticket exitTime) := by
  refine ⟨rfl, fun _ => rfl, fun _ => rfl, ?_, rfl⟩
  intro initial later
  unfold ParkingFeeCalculator.calculateFee ParkingFeeCalculator.configure
  rw [ParkingFeeCalculator.foldl_setStrategy]
  rfl

theorem ParkingFeeCalculator.calculateFee_delegates_witness :
    ((ParkingFeeCalculator.ctor (HourlyRateStrategy.mk (double.finite 10)).toFeeStrategy).setStrategy
        (FlatRateStrategy.mk (double.finite 7)).toFeeStrategy).calculateFee
      ⟨1, ⟨"KA-01", VehicleSize.Small⟩, (0, 0), 0, VehicleSize.Small⟩ 3601 = double.finite 7 :=
  ((ParkingFeeCalculator.calculateFee_delegates
    (ParkingFeeCalculator.ctor (HourlyRateStrategy.mk (double.finite 10)).toFeeStrategy)
    ⟨1, ⟨"KA-01", VehicleSize.Small⟩, (0, 0), 0, VehicleSize.Small⟩ 3601).2.2.1
      (FlatRateStrategy.mk (double.finite 7)).toFeeStrategy).trans rfl

/-! ### The life cycle of a spot -/

/-- C8: park/free round trip. `parkVehicle` followed by `freeSpot` leaves any
spot available; a spot that was free before (available, no occupant; for a
producible spot state being available is enough) is restored to exactly its
earlier state. On a level built by the constructor and changed only by parking
and freeing, the same holds when the spot is freed through
`ParkingLevel::freeSpot` with the spot's own number. -/
theorem ParkingSpot.park_free_round_trip (s : ParkingSpot) (vehicle : Option Vehicle) :
    (s.parkVehicle vehicle).freeSpot.getAvailability = true ∧
    (s.getAvailability = true → s.currentVehicle = none →
      (s.parkVehicle vehicle).freeSpot = s) ∧
    (s.Reachable → s.getAvailability = true → (s.parkVehicle vehicle).freeSpot = s) ∧
    (∀ (lv parked : ParkingLevel) (i : Nat), lv.Reachable → lv.spotAt i = some s →
      lv.parkAt i vehicle = some parked →
      parked.spotAt i = some (s.parkVehicle vehicle) ∧
      ∃ freed, parked.freeSpot (s.parkVehicle vehicle).getSpotNumber = some freed ∧
        freed.spotAt i = some (s.parkVehicle vehicle).freeSpot ∧
        (s.getAvailability = true → freed = lv)) := by
  refine ⟨rfl, fun hav hocc => ParkingSpot.park_free_of_free s vehicle hav hocc,
    fun hr hav => ParkingSpot.park_free_of_free s vehicle hav (hr.no_occupant hav), ?_⟩
  intro lv parked i hlv hs hpark
  have hs' : lv.spots[i]? = some s := hs
  obtain ⟨old, hold, hnumber, hspots, hget⟩ := ParkingLevel.callAt_spots lv parked i _ hpark
  rw [hs'] at hold
  cases hold
  have hlt : i < lv.spots.length := by
    rcases Nat.lt_or_ge i lv.spots.length with hl | hl
    · exact hl
    · rw [List.getElem?_eq_none hl] at hs'; cases hs'
  have hparked : parked.spots[i]? = some (s.parkVehicle vehicle) := by
    rw [hget i]; simp
  have hnum : s.spotNumber = (i : Int) + 1 := hlv.numbered i s hs'
  have hidx : ((s.parkVehicle vehicle).getSpotNumber - 1).toNat = i := by
    simp only [ParkingSpot.getSpotNumber, ParkingSpot.parkVehicle, hnum]
    omega
  have hone : 1 ≤ (s.parkVehicle vehicle).getSpotNumber := by
    simp only [ParkingSpot.getSpotNumber, ParkingSpot.parkVehicle, hnum]
    omega
  refine ⟨hparked, ?_⟩
  refine ⟨{ parked with spots := parked.spots.set i (s.parkVehicle vehicle).freeSpot }, ?_, ?_, ?_⟩
  · simp only [ParkingLevel.freeSpot, hone, if_true, hidx, ParkingLevel.callAt, hparked]
  · have hlt' : i < parked.spots.length := by rw [hspots, List.length_set]; exact hlt
    simp only [ParkingLevel.spotAt]
    exact List.getElem?_set_self hlt'
  · intro hav
    have hback : (s.parkVehicle vehicle).freeSpot = s :=
      ParkingSpot.park_free_of_free s vehicle hav
        ((hlv.spots_reachable i s hs').no_occupant hav)
    rw [hback, hspots, List.set_set, ParkingLevel.set_getElem? lv.spots i s hs']
    cases lv
    simp only at hnumber
    simp [hnumber]

theorem ParkingSpot.park_free_round_trip_witness :
    ((ParkingSpot.ctor 2 VehicleSize.Compact).parkVehicle
      (some ⟨"KA-01", VehicleSize.Small⟩)).freeSpot = ParkingSpot.ctor 2 VehicleSize.Compact ∧
    ∃ freed, (ParkingLevel.mk 0 [ParkingSpot.ctor 1 VehicleSize.Compact,
        (ParkingSpot.ctor 2 VehicleSize.Compact).parkVehicle
          (some ⟨"KA-01", VehicleSize.Small⟩)]).freeSpot
          ((ParkingSpot.ctor 2 VehicleSize.Compact).parkVehicle
            (some ⟨"KA-01", VehicleSize.Small⟩)).getSpotNumber = some freed ∧
      freed.spotAt 1 = some ((ParkingSpot.ctor 2 VehicleSize.Compact).parkVehicle
        (some ⟨"KA-01", VehicleSize.Small⟩)).freeSpot ∧
      ((ParkingSpot.ctor 2 VehicleSize.Compact).getAvailability = true →
        freed = ParkingLevel.ctor 0 2) :=
  ⟨(ParkingSpot.park_free_round_trip (ParkingSpot.ctor 2 VehicleSize.Compact)
      (some ⟨"KA-01", VehicleSize.Small⟩)).2.1 rfl rfl,
    ((ParkingSpot.park_free_round_trip (ParkingSpot.ctor 2 VehicleSize.Compact)
      (some ⟨"KA-01", VehicleSize.Small⟩)).2.2.2 (ParkingLevel.ctor 0 2)
        (ParkingLevel.mk 0 [ParkingSpot.ctor 1 VehicleSize.Compact,
          (ParkingSpot.ctor 2 VehicleSize.Compact).parkVehicle
            (some ⟨"KA-01", VehicleSize.Small⟩)]) 1
        (ParkingLevel.Reachable.ctor 0 2) (by decide) (by decide)).2⟩

/-- C9 (as the code behaves): on every spot reached from the constructor by
`freeSpot` calls and `parkVehicle` calls with a non-null vehicle, the occupant
is set if and only if the spot is marked unavailable; when null vehicle
pointers are allowed too, a set occupant still implies that the spot is marked
unavailable. -/
theorem ParkingSpot.occupancy_invariant (s : ParkingSpot) :
    (s.ReachableNonNull → (s.currentVehicle ≠ none ↔ s.isAvailable = false)) ∧
    (s.Reachable → (s.currentVehicle ≠ none → s.isAvailable = false)) := by
  constructor
  · intro h
    induction h with
    | ctor n size => simp [ParkingSpot.ctor]
    | parkVehicle s vehicle _ _ => simp [ParkingSpot.parkVehicle]
    | freeSpot s _ _ => simp [ParkingSpot.freeSpot]
  · intro h hocc
    cases hav : s.isAvailable with
    | false => rfl
    | true => exact absurd (h.no_occupant hav) hocc

theorem ParkingSpot.occupancy_invariant_witness :
    ((ParkingSpot.ctor 1 VehicleSize.Compact).parkVehicle
        (some ⟨"KA-01", VehicleSize.Small⟩)).currentVehicle ≠ none ↔
      ((ParkingSpot.ctor 1 VehicleSize.Compact).parkVehicle
        (some ⟨"KA-01", VehicleSize.Small⟩)).isAvailable = false :=
  (ParkingSpot.occupancy_invariant _).1
    (ParkingSpot.ReachableNonNull.parkVehicle _ ⟨"KA-01", VehicleSize.Small⟩
      (ParkingSpot.ReachableNonNull.ctor 1 VehicleSize.Compact))

/-- C9, refuted as stated: `parkVehicle(nullptr)` on a fresh spot gives a
state reached from the constructor that is marked unavailable and has no
occupant. -/
theorem ParkingSpot.occupancy_invariant_counterexample :
    ((ParkingSpot.ctor 1 VehicleSize.Compact).parkVehicle none).Reachable ∧
    ¬ (((ParkingSpot.ctor 1 VehicleSize.Compact).parkVehicle none).currentVehicle ≠ none ↔
      ((ParkingSpot.ctor 1 VehicleSize.Compact).parkVehicle none).isAvailable = false) :=
  ⟨ParkingSpot.Reachable.parkVehicle _ none (ParkingSpot.Reachable.ctor 1 VehicleSize.Compact),
    fun h => h.2 rfl rfl⟩

/-- C10 (as the code behaves): `parkVehicle` has no failure result. Applied to
a spot whose occupant is set it stores the new vehicle pointer as the occupant
and leaves the spot marked unavailable, number and size unchanged; on a
producible spot state the availability flag is therefore unchanged. -/
theorem ParkingSpot.parkVehicle_replaces_occupant (s : ParkingSpot) (vehicle : Option Vehicle)
    (h : s.currentVehicle ≠ none) :
    (s.parkVehicle vehicle).currentVehicle = vehicle ∧
    (s.parkVehicle vehicle).isAvailable = false ∧
    (s.parkVehicle vehicle).spotNumber = s.spotNumber ∧
    (s.parkVehicle vehicle).size = s.size ∧
    (s.Reachable → (s.parkVehicle vehicle).isAvailable = s.isAvailable) := by
  refine ⟨rfl, rfl, rfl, rfl, ?_⟩
  intro hr
  cases hav : s.isAvailable with
  | false => rfl
  | true => exact absurd (hr.no_occupant hav) h

theorem ParkingSpot.parkVehicle_replaces_occupant_witness :
    ((ParkingSpot.mk 3 false VehicleSize.Compact (some ⟨"KA-07", VehicleSize.Compact⟩)).parkVehicle
      (some ⟨"KA-08", VehicleSize.Small⟩)).currentVehicle = some ⟨"KA-08", VehicleSize.Small⟩ :=
  (ParkingSpot.parkVehicle_replaces_occupant
    (ParkingSpot.mk 3 false VehicleSize.Compact (some ⟨"KA-07", VehicleSize.Compact⟩))
    (some ⟨"KA-08", VehicleSize.Small⟩) (by decide)).1

/-- C10, refuted as stated: a spot occupied by vehicle KA-01 takes a second
`parkVehicle` call, for KA-02, and its occupant is KA-02 afterwards. -/
theorem ParkingSpot.parkVehicle_occupied_counterexample :
    ((ParkingSpot.ctor 1 VehicleSize.Compact).parkVehicle
      (some ⟨"KA-01", VehicleSize.Small⟩)).currentVehicle = some ⟨"KA-01", VehicleSize.Small⟩ ∧
    (((ParkingSpot.ctor 1 VehicleSize.Compact).parkVehicle
      (some ⟨"KA-01", VehicleSize.Small⟩)).parkVehicle
        (some ⟨"KA-02", VehicleSize.Small⟩)).currentVehicle = some ⟨"KA-02", VehicleSize.Small⟩ ∧
    (((ParkingSpot.ctor 1 VehicleSize.Compact).parkVehicle
      (some ⟨"KA-01", VehicleSize.Small⟩)).parkVehicle
        (some ⟨"KA-02", VehicleSize.Small⟩)).currentVehicle ≠
      ((ParkingSpot.ctor 1 VehicleSize.Compact).parkVehicle
        (some ⟨"KA-01", VehicleSize.Small⟩)).currentVehicle :=
  ⟨rfl, rfl, by decide⟩

/-! ### Freeing, fitting and the first-fit scenario -/

theorem ParkingLevel.freeSpot_position (lv : ParkingLevel) (i : Nat) (old : ParkingSpot)
    (h : lv.spotAt i = some old) :
    lv.freeSpot ((i : Int) + 1) = some { lv with spots := lv.spots.set i old.freeSpot } := by
  have hi : ((i : Int) + 1 - 1).toNat = i := by omega
  have h' : lv.spots[i]? = some old := h
  unfold ParkingLevel.freeSpot
  rw [if_pos (by omega), hi]
  unfold ParkingLevel.callAt
  rw [h']

/-- C11 (as the code behaves): `freeSpot` has no failure result. Applied to a
spot that is already free it succeeds and leaves the spot free, unchanged when
the spot had no occupant; freeing twice in a row gives the same spot as freeing
once. `ParkingLevel::freeSpot` succeeds for every number from 1 to the number
of spots and frees the spot at that position; called a second time with the
same number it succeeds again and leaves the level as the first call left it;
and on a level built by the constructor and changed only by parking and
freeing, called with the number of a spot that is free, it succeeds and leaves
the level unchanged. -/
theorem ParkingSpot.freeSpot_idempotent (s : ParkingSpot) :
    s.freeSpot.getAvailability = true ∧
    s.freeSpot.freeSpot = s.freeSpot ∧
    (s.getAvailability = true → s.currentVehicle = none → s.freeSpot = s) ∧
    (∀ (lv lv' : ParkingLevel) (n : Int), lv.freeSpot n = some lv' →
      lv'.freeSpot n = some lv') ∧
    (∀ (lv : ParkingLevel) (i : Nat) (old : ParkingSpot), lv.spotAt i = some old →
      lv.freeSpot ((i : Int) + 1) = some { lv with spots := lv.spots.set i old.freeSpot }) ∧
    (∀ (lv : ParkingLevel) (n : Int), 1 ≤ n → n ≤ (lv.spots.length : Int) →
      ∃ lv', lv.freeSpot n = some lv' ∧ lv'.freeSpot n = some lv') ∧
    (∀ (lv : ParkingLevel) (i : Nat) (old : ParkingSpot), lv.Reachable →
      lv.spotAt i = some old → old.getAvailability = true →
      old.getSpotNumber = (i : Int) + 1 ∧ lv.freeSpot old.getSpotNumber = some lv ∧
        (lv.freeSpot old.getSpotNumber).bind (fun lv' => lv'.freeSpot old.getSpotNumber) =
          some lv) := by
  have hfree : s.getAvailability = true → s.currentVehicle = none → s.freeSpot = s := by
    intro hav hocc
    cases s
    simp only [ParkingSpot.getAvailability, ParkingSpot.freeSpot] at *
    simp [hav, hocc]
  have htwice : ∀ (lv lv' : ParkingLevel) (n : Int), lv.freeSpot n = some lv' →
      lv'.freeSpot n = some lv' := by
    intro lv lv' n h
    unfold ParkingLevel.freeSpot at h ⊢
    split at h
    · rename_i hn
      rw [if_pos hn]
      obtain ⟨old, hold, hnumber, hspots, hget⟩ :=
        ParkingLevel.callAt_spots lv lv' _ ParkingSpot.freeSpot h
      have hi : lv'.spots[(n - 1).toNat]? = some old.freeSpot := by
        rw [hget]; simp
      unfold ParkingLevel.callAt
      rw [hi]
      have : lv'.spots.set (n - 1).toNat old.freeSpot.freeSpot = lv'.spots :=
        ParkingLevel.set_getElem? lv'.spots _ _ hi
      simp only [this]
    · cases h
  refine ⟨rfl, rfl, hfree, htwice, ParkingLevel.freeSpot_position, ?_, ?_⟩
  · intro lv n h1 h2
    have hlt : (n - 1).toNat < lv.spots.length := by omega
    have hget : lv.spotAt (n - 1).toNat = some (lv.spots.get ⟨(n - 1).toNat, hlt⟩) := by
      simp [ParkingLevel.spotAt, List.getElem?_eq_getElem hlt]
    have hpos := ParkingLevel.freeSpot_position lv (n - 1).toNat _ hget
    have hn : (((n - 1).toNat : Nat) : Int) + 1 = n := by omega
    rw [hn] at hpos
    exact ⟨_, hpos, htwice lv _ n hpos⟩
  · intro lv i old hlv hold hav
    have hold' : lv.spots[i]? = some old := hold
    have hnum : old.spotNumber = (i : Int) + 1 := hlv.numbered i old hold'
    have hsame : old.freeSpot = old := by
      have hocc := (hlv.spots_reachable i old hold').no_occupant hav
      obtain ⟨n, a, sz, occ⟩ := old
      simp only [ParkingSpot.getAvailability, ParkingSpot.freeSpot] at *
      simp [hav, hocc]
    have hpos := ParkingLevel.freeSpot_position lv i old hold
    rw [hsame, ParkingLevel.set_getElem? lv.spots i old hold'] at hpos
    have hnum' : old.getSpotNumber = (i : Int) + 1 := hnum
    refine ⟨hnum', ?_, ?_⟩
    · rw [hnum']; exact hpos
    · rw [hnum', hpos]
      exact hpos

/-- C11, refuted as stated: freeing the free spot 1 of a fresh one-spot level
succeeds and returns the level unchanged, the second time as the first, and
`freeSpot` on a fresh spot returns that spot. -/
theorem ParkingSpot.freeSpot_free_counterexample :
    (ParkingSpot.ctor 1 VehicleSize.Compact).getAvailability = true ∧
    (ParkingSpot.ctor 1 VehicleSize.Compact).freeSpot = ParkingSpot.ctor 1 VehicleSize.Compact ∧
    (ParkingLevel.ctor 0 1).freeSpot 1 = some (ParkingLevel.ctor 0 1) ∧
    ((ParkingLevel.ctor 0 1).freeSpot 1).bind (fun lv => lv.freeSpot 1) =
      some (ParkingLevel.ctor 0 1) := by
  decide

/-- C13: `canFitVehicle` returns true exactly when the vehicle's size is at
most the spot's size in the order `Small < Compact`; the answer is the same
whatever the spot's availability flag and occupant are, in particular before
and after `parkVehicle` and `freeSpot`, and the call leaves the spot and the
vehicle as they were. -/
theorem ParkingSpot.canFitVehicle_iff_atMost (s : ParkingSpot) (vehicle : Vehicle) :
    (s.canFitVehicle vehicle = true ↔ VehicleSize.atMost vehicle.size s.size = true) ∧
    (∀ (avail : Bool) (occupant : Option Vehicle),
      ({ s with isAvailable := avail, currentVehicle := occupant } : ParkingSpot).canFitVehicle
        vehicle = s.canFitVehicle vehicle) ∧
    (∀ other : Option Vehicle,
      (s.parkVehicle other).canFitVehicle vehicle = s.canFitVehicle vehicle) ∧
    s.freeSpot.canFitVehicle vehicle = s.canFitVehicle vehicle ∧
    s.canFitVehicleCall vehicle = (s, vehicle, s.canFitVehicle vehicle) := by
  refine ⟨?_, fun _ _ => rfl, fun _ => rfl, rfl, rfl⟩
  obtain ⟨n, a, size, occ⟩ := s
  obtain ⟨plate, vsize⟩ := vehicle
  cases size <;> cases vsize <;>
    simp [ParkingSpot.canFitVehicle, Vehicle.getSize, VehicleSize.toInt, VehicleSize.atMost]

/-! ### Vending machine -/

theorem std.unordered_map.find_append_getD (m : List (String × Int)) (item key : String) :
    (std.unordered_map.find (m ++ [(item, 0)]) key).getD 0 =
      (std.unordered_map.find m key).getD 0 := by
  induction m with
  | nil =>
    by_cases h : item = key <;> simp [std.unordered_map.find, h]
  | cons e rest ih =>
    obtain ⟨k, v⟩ := e
    by_cases h : k = key
    · simp [std.unordered_map.find, h]
    · simpa [std.unordered_map.find, h] using ih

theorem VendingMachine.hasItem_stock (m : VendingMachine) (item key : String) :
    (m.hasItem item).2.stock key = m.stock key ∧
    (m.hasItem item).2.currentState = m.currentState ∧
    (m.hasItem item).2.currentCash = m.currentCash ∧
    (m.hasItem item).2.out = m.out := by
  refine ⟨?_, rfl, rfl, rfl⟩
  simp only [VendingMachine.hasItem, VendingMachine.stock, std.unordered_map.index]
  cases h : std.unordered_map.find m.itemList item with
  | some v => rfl
  | none => exact std.unordered_map.find_append_getD m.itemList item key

theorem HasCashState.chooseItem_cases (item : String) (m : VendingMachine) :
    ((m.hasItem item).1 = false →
      HasCashState.chooseItem item m = (m.hasItem item).2.cout [Out.str "Item not available"]) ∧
    ((m.hasItem item).1 = true → m.currentCash < 1 →
      HasCashState.chooseItem item m = (m.hasItem item).2) ∧
    ((m.hasItem item).1 = true → 1 ≤ m.currentCash →
      HasCashState.chooseItem item m = (m.hasItem item).2.setState State.NoCashState) := by
  refine ⟨?_, ?_, ?_⟩
  · intro h
    simp [HasCashState.chooseItem, h]
  · intro h hc
    have hp : std.promote ((m.hasItem item).2.getItemPrice item) = 1 := rfl
    have hcash : (m.hasItem item).2.getCurrentCash = m.currentCash := rfl
    unfold HasCashState.chooseItem
    rw [if_pos h, hp, hcash, if_neg (by omega)]
  · intro h hc
    have hp : std.promote ((m.hasItem item).2.getItemPrice item) = 1 := rfl
    have hcash : (m.hasItem item).2.getCurrentCash = m.currentCash := rfl
    unfold HasCashState.chooseItem
    rw [if_pos h, hp, hcash, if_pos hc]
    rfl

/-- C14, evaluated on the code: a machine brought into `HasCashState` by
`insertCash(0)` holds no cash, and `chooseItem("Soda")` on it, an item in
stock, writes nothing and changes nothing. In general, in `HasCashState` an
item in stock chosen with cash below 1 produces no output and leaves the state;
only an item out of stock produces the message "Item not available". -/
theorem HasCashState.chooseItem_insufficient_cash_silent :
    (VendingMachine.ctor.insertCash 0).currentState = State.HasCashState ∧
    ((VendingMachine.ctor.insertCash 0).hasItem "Soda").1 = true ∧
    (VendingMachine.ctor.insertCash 0).getCurrentCash = 0 ∧
    (VendingMachine.ctor.insertCash 0).chooseItem "Soda" = VendingMachine.ctor.insertCash 0 ∧
    (∀ (m : VendingMachine) (item : String), m.currentState = State.HasCashState →
      (m.hasItem item).1 = true → m.currentCash < 1 →
      (m.chooseItem item).out = m.out ∧
        (m.chooseItem item).currentState = State.HasCashState) ∧
    (∀ (m : VendingMachine) (item : String), m.currentState = State.HasCashState →
      (m.hasItem item).1 = false →
      (m.chooseItem item).out = m.out ++ [Out.str "Item not available"] ∧
        (m.chooseItem item).currentState = State.HasCashState) := by
  refine ⟨by decide, by decide, by decide, by decide, ?_, ?_⟩
  · intro m item hst has hc
    have h := (HasCashState.chooseItem_cases item m).2.1 has hc
    simp only [VendingMachine.chooseItem, hst, h]
    exact ⟨rfl, hst⟩
  · intro m item hst has
    have h := (HasCashState.chooseItem_cases item m).1 has
    simp only [VendingMachine.chooseItem, hst, h]
    exact ⟨rfl, hst⟩

/-- C15, evaluated on the code: `getItemPrice` returns `true`, which the
comparison promotes to 1, so a machine in `HasCashState` dispenses an item in
stock exactly when the cash is at least 1: with 20 inserted, less than 25,
`chooseItem("Soda")` dispenses and the machine is back in `NoCashState`. -/
theorem HasCashState.chooseItem_price_is_one :
    VendingMachine.ctor.getItemPrice "Soda" = true ∧
    std.promote (VendingMachine.ctor.getItemPrice "Soda") = 1 ∧
    (VendingMachine.ctor.insertCash 20).currentState = State.HasCashState ∧
    (VendingMachine.ctor.insertCash 20).getCurrentCash = 20 ∧
    ((VendingMachine.ctor.insertCash 20).chooseItem "Soda").currentState = State.NoCashState ∧
    (∀ (m : VendingMachine) (item : String), m.currentState = State.HasCashState →
      (m.hasItem item).1 = true →
      ((m.chooseItem item).currentState = State.NoCashState ↔ 1 ≤ m.currentCash)) := by
  refine ⟨by decide, by decide, by decide, by decide, by decide, ?_⟩
  intro m item hst has
  by_cases hc : 1 ≤ m.currentCash
  · have h := (HasCashState.chooseItem_cases item m).2.2 has hc
    simp only [VendingMachine.chooseItem, hst, h]
    exact ⟨fun _ => hc, fun _ => rfl⟩
  · have h := (HasCashState.chooseItem_cases item m).2.1 has (by omega)
    simp only [VendingMachine.chooseItem, hst, h]
    constructor
    · intro hn
      have : (m.hasItem item).2.currentState = m.currentState :=
        (VendingMachine.hasItem_stock m item item).2.1
      rw [this, hst] at hn
      cases hn
    · intro h1; exact absurd h1 hc

/-- C16, evaluated on the code: after `insertCash(50)` and `chooseItem("Soda")`
the item is dispensed and the stock recorded for "Soda" is still 20. In
general no `chooseItem` and no `insertCash` call changes the stock recorded for
any item. -/
theorem VendingMachine.purchase_keeps_stock :
    VendingMachine.ctor.stock "Soda" = 20 ∧
    ((VendingMachine.ctor.insertCash 50).chooseItem "Soda").currentState = State.NoCashState ∧
    ((VendingMachine.ctor.insertCash 50).chooseItem "Soda").stock "Soda" = 20 ∧
    ((VendingMachine.ctor.insertCash 50).chooseItem "Soda").itemList =
      VendingMachine.ctor.itemList ∧
    (∀ (m : VendingMachine) (item key : String), (m.chooseItem item).stock key = m.stock key) ∧
    (∀ (m : VendingMachine) (cash : Int) (key : String),
      (m.insertCash cash).stock key = m.stock key) := by
  refine ⟨by decide, by decide, by decide, by decide, ?_, ?_⟩
  · intro m item key
    have hs := (VendingMachine.hasItem_stock m item key).1
    cases hst : m.currentState with
    | NoCashState => simp only [VendingMachine.chooseItem, hst]; rfl
    | ItemSelectedState => simp only [VendingMachine.chooseItem, hst]; rfl
    | HasCashState =>
      simp only [VendingMachine.chooseItem, hst]
      cases has : (m.hasItem item).1 with
      | false =>
        rw [(HasCashState.chooseItem_cases item m).1 has]
        exact hs
      | true =>
        by_cases hc : 1 ≤ m.currentCash
        · rw [(HasCashState.chooseItem_cases item m).2.2 has hc]
          exact hs
        · rw [(HasCashState.chooseItem_cases item m).2.1 has (by omega)]
          exact hs
  · intro m cash key
    cases hst : m.currentState <;> simp only [VendingMachine.insertCash, hst] <;> rfl

/-! ### File search -/

theorem FileFilter.pushMatching_eq (test : File → Bool) (filteredFiles files : List File) :
    FileFilter.pushMatching test filteredFiles files = filteredFiles ++ files.filter test := by
  induction files generalizing filteredFiles with
  | nil => simp [FileFilter.pushMatching]
  | cons file rest ih =>
    unfold FileFilter.pushMatching
    by_cases h : test file = true
    · rw [if_pos h, ih]; simp [List.filter_cons, h]
    · rw [if_neg h, ih]; simp [List.filter_cons, h]

theorem FileFilter.meetCriteria_eq_filter (f : FileFilter) (files : List File) :
    f.meetCriteria files = files.filter f.satisfies := by
  induction f generalizing files with
  | ExtensionFilter extension =>
    simp only [FileFilter.meetCriteria, ExtensionFilter.meetCriteria, FileFilter.pushMatching_eq,
      List.nil_append]
    rfl
  | NameFilter name =>
    simp only [FileFilter.meetCriteria, NameFilter.meetCriteria, FileFilter.pushMatching_eq,
      List.nil_append]
    rfl
  | SizeFilter size =>
    simp only [FileFilter.meetCriteria, SizeFilter.meetCriteria, FileFilter.pushMatching_eq,
      List.nil_append]
    rfl
  | AndFilter filter1 filter2 ih1 ih2 =>
    simp only [FileFilter.meetCriteria]
    rw [ih1, ih2, List.filter_filter]
    congr 1
    funext file
    simp [FileFilter.satisfies, Bool.and_comm]

/-- C17: for filters `f1`, `f2` built from `ExtensionFilter`, `NameFilter`,
`SizeFilter` and `AndFilter`, `AndFilter(f1, f2).meetCriteria(files)` is the
list of the files that satisfy both criteria, in their original order and with
their multiplicity, so `AndFilter(f1, f2)` and `AndFilter(f2, f1)` return the
same list; the five files of `main` filtered by extension "txt" and size 100
give file1 and file5. -/
theorem FileFilter.andFilter_conjunction (f1 f2 : FileFilter) (files : List File) :
    (FileFilter.AndFilter f1 f2).meetCriteria files =
      files.filter (fun file => f1.satisfies file && f2.satisfies file) ∧
    ((FileFilter.AndFilter f1 f2).meetCriteria files).Sublist files ∧
    (∀ file, ((FileFilter.AndFilter f1 f2).meetCriteria files).count file =
      if f1.satisfies file && f2.satisfies file then files.count file else 0) ∧
    (FileFilter.AndFilter f1 f2).meetCriteria files = (FileFilter.AndFilter f2 f1).meetCriteria files ∧
    (FileFilter.AndFilter (FileFilter.ExtensionFilter "txt") (FileFilter.SizeFilter 100)).meetCriteria
      FileFilter.mainFiles = [⟨"file1", "txt", 100⟩, ⟨"file5", "txt", 100⟩] := by
  have h12 : (FileFilter.AndFilter f1 f2).meetCriteria files =
      files.filter (fun file => f1.satisfies file && f2.satisfies file) := by
    rw [FileFilter.meetCriteria_eq_filter]; rfl
  refine ⟨h12, ?_, ?_, ?_, by decide⟩
  · rw [h12]; exact List.filter_sublist files
  · intro file
    rw [h12]
    by_cases hsat : (f1.satisfies file && f2.satisfies file) = true
    · rw [if_pos hsat]
      exact List.count_filter hsat
    · rw [if_neg hsat]
      apply List.count_eq_zero_of_not_mem
      intro hmem
      exact hsat (List.mem_filter.mp hmem).2
  · rw [FileFilter.meetCriteria_eq_filter, FileFilter.meetCriteria_eq_filter]
    congr 1
    funext file
    simp [FileFilter.satisfies, Bool.and_comm]

/-! ### Text editor -/

theorem TextEditor.removeText_append (t c : String) :
    TextEditor.removeText { text := t ++ c } (c.length : Int) = some { text := t } := by
  unfold TextEditor.removeText
  have hlen : (t ++ c).length = t.length + c.length := String.length_append t c
  have hcond : 0 ≤ (c.length : Int) ∧ (c.length : Int) ≤ ((t ++ c).length : Int) := by
    rw [hlen]; constructor <;> omega
  rw [if_pos hcond]
  have hn : (t ++ c).length - (c.length : Int).toNat = t.data.length := by
    rw [hlen, Int.toNat_ofNat, Nat.add_sub_cancel]
    rfl
  rw [hn, String.data_append, List.take_left' rfl]

theorem WriteCommand.texts_append (xs ys : List WriteCommand) :
    WriteCommand.texts (xs ++ ys) = WriteCommand.texts xs ++ WriteCommand.texts ys := by
  induction xs with
  | nil => simp [WriteCommand.texts]
  | cons c rest ih => simp [WriteCommand.texts, ih, String.append_assoc]

theorem CommandManagaer.executeAll_eq (m : CommandManagaer) (editor : TextEditor)
    (commands : List WriteCommand) :
    CommandManagaer.executeAll (m, editor) commands =
      ({ commandHistory := commands.reverse ++ m.commandHistory, redo := m.redo },
        { text := editor.text ++ WriteCommand.texts commands }) := by
  induction commands generalizing m editor with
  | nil => simp [CommandManagaer.executeAll, WriteCommand.texts]
  | cons c rest ih =>
    simp only [CommandManagaer.executeAll, CommandManagaer.executeCommand]
    rw [ih]
    simp [WriteCommand.execute, TextEditor.writeText, WriteCommand.texts, String.append_assoc]

theorem std.narrowToInt_of_lt (n : Nat) (h : n < 2 ^ 31) : std.narrowToInt n = (n : Int) := by
  unfold std.narrowToInt
  have h1 : n % 4294967296 = n := Nat.mod_eq_of_lt (by omega)
  rw [h1, if_pos (by omega)]

theorem WriteCommand.undo_append (t : String) (c : WriteCommand) (hc : c.text.length < 2 ^ 31) :
    c.undo { text := t ++ c.text } = some { text := t } := by
  unfold WriteCommand.undo
  rw [std.narrowToInt_of_lt _ hc]
  exact TextEditor.removeText_append t c.text

theorem CommandManagaer.undoTimes_eq (xs hist redo : List WriteCommand) (base : String)
    (hxs : ∀ c ∈ xs, c.text.length < 2 ^ 31) :
    CommandManagaer.undoTimes xs.length
        ({ commandHistory := xs.reverse ++ hist, redo := redo },
          { text := base ++ WriteCommand.texts xs }) =
      some ({ commandHistory := hist, redo := xs ++ redo }, { text := base }) := by
  induction xs using List.reverseRecOn generalizing redo with
  | nil => simp [CommandManagaer.undoTimes, WriteCommand.texts]
  | append_singleton xs c ih =>
    have hc : c.text.length < 2 ^ 31 := hxs c (by simp)
    have hxs' : ∀ c' ∈ xs, c'.text.length < 2 ^ 31 :=
      fun c' hc' => hxs c' (List.mem_append_left _ hc')
    have hstep : CommandManagaer.undo
        { commandHistory := (xs ++ [c]).reverse ++ hist, redo := redo }
        { text := base ++ WriteCommand.texts (xs ++ [c]) } =
        some ({ commandHistory := xs.reverse ++ hist, redo := c :: redo },
          { text := base ++ WriteCommand.texts xs }) := by
      have htext : base ++ WriteCommand.texts (xs ++ [c]) =
          (base ++ WriteCommand.texts xs) ++ c.text := by
        rw [WriteCommand.texts_append]
        simp [WriteCommand.texts, String.append_assoc]
      simp only [CommandManagaer.undo, List.reverse_append, List.reverse_cons, List.reverse_nil,
        List.nil_append, List.singleton_append, List.cons_append, htext,
        WriteCommand.undo_append _ c hc]
    rw [List.length_append, List.length_singleton, CommandManagaer.undoTimes]
    simp only [hstep]
    rw [ih (c :: redo) hxs']
    simp

theorem CommandManagaer.redoTimes_eq (ys hist zs : List WriteCommand) (base : String) :
    CommandManagaer.redoTimes ys.length
        ({ commandHistory := hist, redo := ys ++ zs }, { text := base }) =
      some ({ commandHistory := ys.reverse ++ hist, redo := zs },
        { text := base ++ WriteCommand.texts ys }) := by
  induction ys generalizing hist base with
  | nil => simp [CommandManagaer.redoTimes, WriteCommand.texts]
  | cons c rest ih =>
    simp only [List.length_cons, CommandManagaer.redoTimes, CommandManagaer.redoCommand,
      List.cons_append, WriteCommand.execute, TextEditor.writeText]
    rw [ih]
    simp [WriteCommand.texts, String.append_assoc]

/-- C18 (as the code behaves): from an editor holding `s` and a fresh manager,
`n` write commands whose texts are shorter than `2 ^ 31` characters, run
through `executeCommand`, then `k <= n` calls of `undo`, then `j <= k` calls of
`redoCommand` all succeed and leave the text `s` followed by the texts of the
first `n - k + j` commands in order; for such a command `undo` directly after
`executeCommand` restores the editor as it was before the command, and
`redoCommand` directly after that restores the editor as it was after the
command. -/
theorem CommandManagaer.undo_redo_text (s : String) (commands : List WriteCommand) (k j : Nat)
    (htexts : ∀ c ∈ commands, c.text.length < 2 ^ 31)
    (hk : k ≤ commands.length) (hj : j ≤ k) :
    (∃ st, CommandManagaer.session s commands k j = some st ∧
      st.2.text = s ++ WriteCommand.texts (commands.take (commands.length - k + j)) ∧
      st.1.commandHistory = (commands.take (commands.length - k + j)).reverse ∧
      st.1.redo = commands.drop (commands.length - k + j)) ∧
    (∀ (m : CommandManagaer) (editor : TextEditor) (c : WriteCommand),
      c.text.length < 2 ^ 31 →
      (m.executeCommand editor c).1.undo (m.executeCommand editor c).2 =
        some ({ commandHistory := m.commandHistory, redo := c :: m.redo }, editor) ∧
      CommandManagaer.redoCommand { commandHistory := m.commandHistory, redo := c :: m.redo }
          editor = some (m.executeCommand editor c)) := by
  constructor
  · obtain ⟨a, rest, ha, hlen⟩ : ∃ a rest, commands = a ++ rest ∧ rest.length = k :=
      ⟨commands.take (commands.length - k), commands.drop (commands.length - k),
        (List.take_append_drop _ _).symm, by rw [List.length_drop]; omega⟩
    obtain ⟨b, c, hb, hblen⟩ : ∃ b c, rest = b ++ c ∧ b.length = j :=
      ⟨rest.take j, rest.drop j, (List.take_append_drop _ _).symm, by
        rw [List.length_take]; omega⟩
    subst ha hb
    have htake : (a ++ (b ++ c)).take ((a ++ (b ++ c)).length - k + j) = a ++ b := by
      have hn : (a ++ (b ++ c)).length - k + j = (a ++ b).length := by
        simp only [List.length_append] at hlen ⊢; omega
      rw [hn, ← List.append_assoc, List.take_left']
      rfl
    have hdrop : (a ++ (b ++ c)).drop ((a ++ (b ++ c)).length - k + j) = c := by
      have hn : (a ++ (b ++ c)).length - k + j = (a ++ b).length := by
        simp only [List.length_append] at hlen ⊢; omega
      rw [hn, ← List.append_assoc, List.drop_left']
      rfl
    rw [htake, hdrop]
    refine ⟨({ commandHistory := (a ++ b).reverse, redo := c },
      { text := s ++ WriteCommand.texts (a ++ b) }), ?_, rfl, rfl, rfl⟩
    unfold CommandManagaer.session
    rw [CommandManagaer.executeAll_eq]
    have h1 : (a ++ (b ++ c)).reverse ++ CommandManagaer.ctor.commandHistory =
        (b ++ c).reverse ++ a.reverse := by
      simp [CommandManagaer.ctor]
    have h2 : s ++ WriteCommand.texts (a ++ (b ++ c)) =
        (s ++ WriteCommand.texts a) ++ WriteCommand.texts (b ++ c) := by
      rw [WriteCommand.texts_append, String.append_assoc]
    simp only [h1, h2]
    rw [← hlen, CommandManagaer.undoTimes_eq _ _ _ _
      (fun c' hc' => htexts c' (List.mem_append_right _ hc'))]
    simp only []
    rw [← hblen]
    have h3 : (b ++ c) ++ CommandManagaer.ctor.redo = b ++ c := by simp [CommandManagaer.ctor]
    rw [h3, CommandManagaer.redoTimes_eq]
    simp [WriteCommand.texts_append, String.append_assoc]
  · intro m editor c hc
    constructor
    · obtain ⟨t⟩ := editor
      have hundo := WriteCommand.undo_append t c hc
      simp only [CommandManagaer.executeCommand, CommandManagaer.undo, WriteCommand.execute,
        TextEditor.writeText, hundo]
    · rfl

theorem CommandManagaer.undo_redo_text_witness :
    ∃ st, CommandManagaer.session "" [⟨"hello"⟩, ⟨"world"⟩] 2 1 = some st ∧
      st.2.text = "hello" :=
  match (CommandManagaer.undo_redo_text "" [⟨"hello"⟩, ⟨"world"⟩] 2 1
    (by
      intro c hc
      simp only [List.mem_cons, List.mem_singleton, List.not_mem_nil, or_false] at hc
      rcases hc with rfl | rfl <;> decide)
    (by decide) (by decide)).1 with
  | ⟨st, hrun, htext, _⟩ => ⟨st, hrun, htext.trans (by decide)⟩

theorem TextEditor.removeText_negative (e : TextEditor) (length : Int) (h : length < 0) :
    e.removeText length = none := by
  unfold TextEditor.removeText
  rw [if_neg (by omega)]

theorem CommandManagaer.undo_of_length (c : WriteCommand) (h : c.text.length = 2 ^ 31)
    (m : CommandManagaer) (editor : TextEditor) :
    std.narrowToInt c.text.length = -2 ^ 31 ∧
    (m.executeCommand editor c).1.undo (m.executeCommand editor c).2 = none := by
  have hnarrow : std.narrowToInt c.text.length = -2 ^ 31 := by
    rw [h]
    unfold std.narrowToInt
    norm_num
  have hundo : ∀ e : TextEditor, c.undo e = none := by
    intro e
    unfold WriteCommand.undo
    rw [hnarrow]
    exact TextEditor.removeText_negative _ _ (by norm_num)
  refine ⟨hnarrow, ?_⟩
  simp only [CommandManagaer.executeCommand, CommandManagaer.undo, hundo]

theorem String.length_replicate_char (n : Nat) (a : Char) :
    (String.mk (List.replicate n a)).length = n := by
  show (List.replicate n a).length = n
  exact List.length_replicate _ _

/-- C18, refuted as stated: a command whose text has `2 ^ 31` characters is
executed on an empty editor; its length does not fit the `int` parameter of
`removeText` and arrives there as `-2 ^ 31`, so the `undo` that follows throws
in `erase` and restores nothing. -/
theorem CommandManagaer.undo_long_text_counterexample :
    (WriteCommand.mk (String.mk (List.replicate (2 ^ 31) 'a'))).text.length = 2 ^ 31 ∧
    std.narrowToInt (WriteCommand.mk (String.mk (List.replicate (2 ^ 31) 'a'))).text.length =
      -2 ^ 31 ∧
    (CommandManagaer.ctor.executeCommand { text := "" }
        (WriteCommand.mk (String.mk (List.replicate (2 ^ 31) 'a')))).1.undo
      (CommandManagaer.ctor.executeCommand { text := "" }
        (WriteCommand.mk (String.mk (List.replicate (2 ^ 31) 'a')))).2 = none :=
  ⟨String.length_replicate_char _ _,
    (CommandManagaer.undo_of_length _ (String.length_replicate_char _ _)
      CommandManagaer.ctor { text := "" }).1,
    (CommandManagaer.undo_of_length _ (String.length_replicate_char _ _)
      CommandManagaer.ctor { text := "" }).2⟩

/-! ### Loggers -/

theorem Logger.logMessage_eq : ∀ (l : Logger) (level : Int) (msg : String) (out : List Out),
    l.logMessage level msg out =
      out ++ (l.levels.filter (fun logLevel => decide (level ≥ logLevel))).flatMap
        (fun _ => [Out.str "msg", Out.str "\n"])
  | Logger.mk cls logLevel none, level, msg, out => by
    cases cls <;> by_cases h : level ≥ logLevel <;>
      simp [Logger.logMessage, Logger.canHandle, Logger.write, Logger.levels, h]
  | Logger.mk cls logLevel (some next), level, msg, out => by
    have ih := Logger.logMessage_eq next level msg
    cases cls <;> by_cases h : level ≥ logLevel <;>
      simp [Logger.logMessage, Logger.canHandle, Logger.write, Logger.levels, h, ih]

/-- C19, evaluated on the code: `logMessage` forwards to the next logger
whether or not the receiver handled the message, and `write` prints the literal
"msg". On the chain of `main` a message of level 3, which the first logger
can handle, is written by all three loggers; in general the output grows by
one "msg" line for every logger of the chain whose level is at most the
message's, and it does not depend on the message text. -/
theorem Logger.logMessage_forwards_always :
    Logger.mainChain.canHandle 3 = true ∧
    Logger.mainChain.logMessage 3 "this is a hotel level message" [] =
      [Out.str "msg", Out.str "\n", Out.str "msg", Out.str "\n", Out.str "msg", Out.str "\n"] ∧
    (∀ (l : Logger) (level : Int) (msg : String) (out : List Out),
      l.logMessage level msg out =
        out ++ (l.levels.filter (fun logLevel => decide (level ≥ logLevel))).flatMap
          (fun _ => [Out.str "msg", Out.str "\n"])) ∧
    (∀ (l : Logger) (level : Int) (msg msg' : String) (out : List Out),
      l.logMessage level msg out = l.logMessage level msg' out) := by
  refine ⟨by decide, by decide, Logger.logMessage_eq, ?_⟩
  intro l level msg msg' out
  rw [Logger.logMessage_eq, Logger.logMessage_eq]

/-! ### Weather station -/

theorem Weatherdata.notifyLoop_eq (w : Weatherdata) (obs : List Nat) (calls : List UpdateCall) :
    w.notifyLoop obs calls = calls ++ obs.map (fun ob => ⟨ob, w.temp, w.humid, w.pres⟩) := by
  induction obs generalizing calls with
  | nil => simp [Weatherdata.notifyLoop]
  | cons ob rest ih => simp [Weatherdata.notifyLoop, ih]

/-- C20, evaluated on the code: `setMeasurements(1, 2, 3)` on the subject of
`main` leaves the members 0, 0, 0 and calls `update(0, 0, 0)` on the two
displays. In general `setMeasurements(t, h, p)` leaves the subject unchanged
and calls `update` once on every registered observer, in registration order,
with the measurements stored before the call. -/
theorem Weatherdata.setMeasurements_keeps_members :
    Weatherdata.mainSubject.setMeasurements 1 2 3 [] =
      (Weatherdata.mainSubject, [⟨0, 0, 0, 0⟩, ⟨1, 0, 0, 0⟩]) ∧
    (Weatherdata.mainSubject.setMeasurements 1 2 3 []).1.temp = 0 ∧
    (Weatherdata.mainSubject.setMeasurements 1 2 3 []).2 ≠ [⟨0, 1, 2, 3⟩, ⟨1, 1, 2, 3⟩] ∧
    (∀ (w : Weatherdata) (t h p : Int) (calls : List UpdateCall),
      w.setMeasurements t h p calls =
        (w, calls ++ w.observers.map (fun ob => ⟨ob, w.temp, w.humid, w.pres⟩))) := by
  refine ⟨by decide, by decide, by decide, ?_⟩
  intro w t h p calls
  simp [Weatherdata.setMeasurements, Weatherdata.notifyAll, Weatherdata.notifyLoop_eq]

/-! ### Spot numbers of a level -/

theorem ParkingLevel.ctorLoop_length (todo : Nat) (i : Int) :
    (ParkingLevel.ctorLoop todo i).length = todo := by
  induction todo generalizing i with
  | zero => rfl
  | succ n ih => simp [ParkingLevel.ctorLoop, ih]

theorem ParkingLevel.ctorLoop_spotNumbers (todo : Nat) (i : Int) :
    (ParkingLevel.ctorLoop todo i).map ParkingSpot.getSpotNumber =
      (List.range todo).map (fun (j : Nat) => i + (j : Int) + 1) := by
  induction todo generalizing i with
  | zero => rfl
  | succ n ih =>
    rw [ParkingLevel.ctorLoop, List.map_cons, ih, List.range_succ_eq_map, List.map_cons,
      List.map_map]
    congr 1
    · simp [ParkingSpot.getSpotNumber, ParkingSpot.ctor]
    · apply List.map_congr_left
      intro j _
      simp only [Function.comp, Nat.cast_succ]
      ring

theorem ParkingLevel.ctorLoop_fresh (todo : Nat) (i : Int) :
    ∀ s ∈ ParkingLevel.ctorLoop todo i, s.getAvailability = true ∧ s.currentVehicle = none := by
  induction todo generalizing i with
  | zero => intro s hs; simp [ParkingLevel.ctorLoop] at hs
  | succ n ih =>
    intro s hs
    simp only [ParkingLevel.ctorLoop, List.mem_cons] at hs
    rcases hs with rfl | hs
    · exact ⟨rfl, rfl⟩
    · exact ih (i + 1) s hs

theorem ParkingLevel.callAt_spotNumbers (lv lv' : ParkingLevel) (i : Nat)
    (m : ParkingSpot → ParkingSpot) (hm : ∀ s, (m s).spotNumber = s.spotNumber)
    (h : lv.callAt i m = some lv') :
    lv'.spotNumbers = lv.spotNumbers ∧ lv'.levelNumber = lv.levelNumber := by
  obtain ⟨old, hold, hnumber, _, hget⟩ := ParkingLevel.callAt_spots lv lv' i m h
  refine ⟨?_, hnumber⟩
  apply List.ext_getElem?
  intro j
  simp only [ParkingLevel.spotNumbers, List.getElem?_map, hget j]
  by_cases hji : j = i
  · subst hji
    simp [hold, ParkingSpot.getSpotNumber, hm]
  · simp [hji]

theorem ParkingLevel.step_spotNumbers (lv lv' : ParkingLevel) (op : LevelOp)
    (h : lv.step op = some lv') :
    lv'.spotNumbers = lv.spotNumbers ∧ lv'.levelNumber = lv.levelNumber := by
  cases op with
  | parkVehicle i vehicle =>
    exact ParkingLevel.callAt_spotNumbers lv lv' i (fun spot => spot.parkVehicle vehicle)
      (fun _ => rfl) h
  | freeSpot i =>
    exact ParkingLevel.callAt_spotNumbers lv lv' i ParkingSpot.freeSpot (fun _ => rfl) h
  | levelFreeSpot n =>
    simp only [ParkingLevel.step, ParkingLevel.freeSpot] at h
    split at h
    · exact ParkingLevel.callAt_spotNumbers lv lv' _ ParkingSpot.freeSpot (fun _ => rfl) h
    · cases h

theorem ParkingLevel.run_spotNumbers (lv lv' : ParkingLevel) (ops : List LevelOp)
    (h : lv.run ops = some lv') :
    lv'.spotNumbers = lv.spotNumbers ∧ lv'.levelNumber = lv.levelNumber := by
  induction ops generalizing lv with
  | nil =>
    simp only [ParkingLevel.run, Option.some.injEq] at h
    subst h
    exact ⟨rfl, rfl⟩
  | cons op rest ih =>
    simp only [ParkingLevel.run] at h
    cases hstep : lv.step op with
    | none => rw [hstep] at h; cases h
    | some lv1 =>
      rw [hstep] at h
      obtain ⟨h1, h2⟩ := ParkingLevel.step_spotNumbers lv lv1 op hstep
      obtain ⟨h3, h4⟩ := ih lv1 h
      exact ⟨h3.trans h1, h4.trans h2⟩

/-- C21: for `numSpots >= 0` the level `ParkingLevel(levelNumber, numSpots)`
holds exactly `numSpots` spots, their spot numbers are 1, 2, ..., `numSpots`
in this order and so pairwise distinct, and every spot is available and has no
occupant; after any sequence of `parkVehicle` and `freeSpot` calls on the level
the number of spots and the list of their spot numbers are the same. -/
theorem ParkingLevel.ctor_spotNumbers (levelNumber numSpots : Int) (h : 0 ≤ numSpots) :
    (((ParkingLevel.ctor levelNumber numSpots).spots.length : Nat) : Int) = numSpots ∧
    (ParkingLevel.ctor levelNumber numSpots).spotNumbers =
      (List.range numSpots.toNat).map (fun (j : Nat) => (j : Int) + 1) ∧
    (ParkingLevel.ctor levelNumber numSpots).spotNumbers.Nodup ∧
    (∀ s ∈ (ParkingLevel.ctor levelNumber numSpots).spots,
      s.getAvailability = true ∧ s.currentVehicle = none) ∧
    (∀ (ops : List LevelOp) (lv' : ParkingLevel),
      (ParkingLevel.ctor levelNumber numSpots).run ops = some lv' →
      lv'.spots.length = (ParkingLevel.ctor levelNumber numSpots).spots.length ∧
      lv'.spotNumbers = (ParkingLevel.ctor levelNumber numSpots).spotNumbers ∧
      lv'.spotNumbers.Nodup ∧ lv'.levelNumber = levelNumber) := by
  have hnumbers : (ParkingLevel.ctor levelNumber numSpots).spotNumbers =
      (List.range numSpots.toNat).map (fun (j : Nat) => (j : Int) + 1) := by
    simp only [ParkingLevel.spotNumbers, ParkingLevel.ctor, ParkingLevel.ctorLoop_spotNumbers]
    apply List.map_congr_left
    intro j _
    ring
  have hnodup : (ParkingLevel.ctor levelNumber numSpots).spotNumbers.Nodup := by
    rw [hnumbers]
    apply List.Nodup.map _ (List.nodup_range _)
    intro a b hab
    simp only at hab
    omega
  refine ⟨?_, hnumbers, hnodup, ParkingLevel.ctorLoop_fresh _ _, ?_⟩
  · simp only [ParkingLevel.ctor, ParkingLevel.ctorLoop_length]
    omega
  · intro ops lv' hrun
    obtain ⟨h1, h2⟩ := ParkingLevel.run_spotNumbers _ lv' ops hrun
    refine ⟨?_, h1, by rw [h1]; exact hnodup, h2⟩
    have := congrArg List.length h1
    simpa [ParkingLevel.spotNumbers] using this

theorem ParkingLevel.ctor_spotNumbers_witness :
    (0 : Int) ≤ 3 ∧ (ParkingLevel.ctor 7 3).spotNumbers = [1, 2, 3] ∧
    ∀ lv', (ParkingLevel.ctor 7 3).run
        [LevelOp.parkVehicle 1 (some ⟨"KA-01", VehicleSize.Small⟩), LevelOp.levelFreeSpot 2,
          LevelOp.parkVehicle 2 none] = some lv' →
      lv'.spotNumbers = [1, 2, 3] :=
  ⟨by decide, by decide, fun lv' hrun =>
    ((ParkingLevel.ctor_spotNumbers 7 3 (by decide)).2.2.2.2 _ lv' hrun).2.1.trans (by decide)⟩
